import Mathlib

/-!
# pyfastx: index construction and retrieval (src/index.c)

A shallow embedding of the index builder `pyfastx_create_index`, of the
lookups `pyfastx_index_get_seq_by_name` / `pyfastx_index_get_seq_by_id`
and of the cached fetch `pyfastx_index_get_full_seq`.

Conventions of the embedding:

* a byte is a natural number below 256; a stream, a line or a text is a
  `List Nat`;
* a `char *` that the code treats as a C string is represented by the bytes
  before its first NUL (`cstr`);
* machine integers are natural numbers reduced modulo `2^32` / `2^64`
  where the C type is `uint32_t` / `uint64_t` / `size_t`, and integers
  obtained by converting to `int` / `sqlite3_int64` are `Int`s;
* the table `seq` of the SQLite store is the list of its rows in rowid
  order; an insert with a NULL id appends a row whose id is one more than
  the number of rows;
* memory allocation and the storage device are assumed not to fail;
* a call ends by returning, possibly with a Python exception raised, or by
  the death of the process: the interpreter kills the process when the code
  raises an exception, or hands it a NULL object, while the thread state is
  detached (between `Py_BEGIN_ALLOW_THREADS` and `Py_END_ALLOW_THREADS`,
  outside a `PyGILState_Ensure` / `PyGILState_Release` pair).
-/

namespace Pyfastx

/-! ## Machine integers -/

/-- Value of an expression stored in a `uint32_t`. -/
def u32 (n : Nat) : Nat := n % 4294967296

/-- Value of an expression stored in a `uint64_t` or a `size_t`. -/
def u64 (n : Nat) : Nat := n % 18446744073709551616

/-- Difference `a - b` of two `uint64_t` values, computed modulo `2^64`. -/
def sub64 (a b : Nat) : Nat := u64 (u64 a + (18446744073709551616 - u64 b))

/-- Conversion of an unsigned value to `int` (32 bit, two's complement). -/
def toInt32 (n : Nat) : Int :=
  if n % 4294967296 < 2147483648 then ((n % 4294967296 : Nat) : Int)
  else ((n % 4294967296 : Nat) : Int) - 4294967296

/-- Conversion of an unsigned value to `sqlite3_int64`. -/
def toInt64 (n : Nat) : Int :=
  if n % 18446744073709551616 < 9223372036854775808 then ((n % 18446744073709551616 : Nat) : Int)
  else ((n % 18446744073709551616 : Nat) : Int) - 18446744073709551616

/-- Result of `sqlite3_column_int` (an `int`) stored into a `uint32_t`. -/
def columnU32 (v : Int) : Nat := (v % 4294967296).toNat

/-- Result of `sqlite3_column_int`: the stored 64-bit integer cut to `int`. -/
def columnInt (v : Int) : Int :=
  if v % 4294967296 < 2147483648 then v % 4294967296 else v % 4294967296 - 4294967296

/-! ## Bytes and C strings -/

/-- The bytes of a string literal (used to write inputs and messages). -/
def bytes (s : String) : List Nat := s.toList.map Char.toNat

/-- The C string starting at a buffer: the bytes before the first NUL. -/
def cstr (s : List Nat) : List Nat := s.takeWhile (fun c => c ≠ 0)

/-- The libc `isspace` / `Py_ISSPACE` class: space, `\t`, `\n`, `\v`, `\f`, `\r`. -/
def isspace (c : Nat) : Bool := c = 32 || (9 ≤ c && c ≤ 13)

/-- The libc `toupper` / `Py_TOUPPER` on bytes: `a`..`z` go to `A`..`Z`. -/
def toupper (c : Nat) : Nat := if 97 ≤ c ∧ c ≤ 122 then c - 32 else c

/-- The C string found at `s` after `strtok(s, " ")` when the returned token
pointer is dropped: `strtok` skips the leading spaces, and if a token
follows it overwrites the first space after the token with NUL; the string
at `s` is then the leading spaces followed by the token. Without a token
nothing is written. -/
def strtok_space (s : List Nat) : List Nat :=
  s.takeWhile (fun c => c = 32) ++ (s.dropWhile (fun c => c = 32)).takeWhile (fun c => c ≠ 32)

/-- Modelled from the spec: `remove_space` of util.c, which is not among the
sources. The spec has the fetched bytes normalised in place by stripping
embedded line terminators and incidental whitespace; the helper receives
the NUL-terminated buffer. -/
def remove_space (s : List Nat) : List Nat := s.filter (fun c => !isspace c)

/-- Modelled from the spec: `remove_space_uppercase` of util.c, which is not
among the sources: as `remove_space`, and the kept bytes are folded to
uppercase. -/
def remove_space_uppercase (s : List Nat) : List Nat :=
  (s.filter (fun c => !isspace c)).map toupper

/-! ## The line reader -/

/-- Modelled from the spec: one call `ks_getuntil(ks, '\n', &line, 0)` of
kseq.h (the line-delimited reader, not among the sources) on the unread
rest of the stream. At the end of the stream the call returns -1 (`none`);
otherwise it yields the bytes before the next `\n` (the delimiter is
consumed and not stored, a `\r` before it is kept) or, when no `\n` is
left, all remaining bytes, together with the new unread rest. -/
def ks_getuntil (s : List Nat) : Option (List Nat × List Nat) :=
  match s with
  | [] => none
  | _ :: _ => some (s.takeWhile (fun c => c ≠ 10), (s.dropWhile (fun c => c ≠ 10)).drop 1)

/-- The lines delivered by the successive calls of `ks_getuntil` in the
loop condition `while (ks_getuntil(ks, '\n', &line, 0) >= 0)`, up to the
call that returns -1 (see `ksLines_unfold`). -/
def ksLines : List Nat → List (List Nat)
  | [] => []
  | c :: rest =>
    if c = 10 then [] :: ksLines rest
    else
      match ksLines rest with
      | [] => [[c]]
      | l :: ls => (c :: l) :: ls

/-! ## The store -/

/-- A row of table `seq`:
`ID, chrom, boff, blen, slen, llen, elen, norm, descr`; a text column is
`none` when NULL was bound. -/
structure Row where
  id : Int
  chrom : Option (List Nat)
  boff : Int
  blen : Int
  slen : Int
  llen : Int
  elen : Int
  norm : Int
  descr : Option (List Nat)
deriving DecidableEq, Repr

/-- Python exceptions raised by the code, with their message. -/
inductive PyExc where
  | KeyError (msg : List Nat)
  | IndexError (msg : List Nat)
  | RuntimeError (msg : List Nat)
deriving DecidableEq, Repr

/-- The ways a fetch ends without a result. `raised e`: the exception `e` is
set and the call returns NULL. `killed e`: the code calls `PyErr_SetString`
for `e` while the thread state is detached (after `Py_BEGIN_ALLOW_THREADS`
and before `Py_END_ALLOW_THREADS`); the interpreter has no thread state to
hold the exception and the process is killed, so that nothing is returned
and no exception reaches the caller. -/
inductive Failure where
  | raised (e : PyExc)
  | killed (e : PyExc)
deriving DecidableEq, Repr

/-- The ways a run of the builder ends: it returns, with a result, or the
process is killed before the function returns. -/
inductive Run (α : Type) where
  | returned (a : α)
  | killed

/-- The index object `pyfastx_Index`. `file` is the content of the sequence
file as the readers deliver it (for a gzip source: the decompressed
stream); `gz_ok` tells whether the gzip adapter can decode the source;
`index_db` is table `seq`; `fpos` and `feof` are the position and the
end-of-file indicator of `fd`; `reads` counts the read calls issued to the
source (`fread` or `zran_read`) and exists only to state which calls read. -/
structure Index where
  file_name : String
  index_file : String
  file : List Nat
  uppercase : Bool
  gzip_format : Bool
  gz_ok : Bool
  key_func : Option (List Nat → Option (List Nat))
  index_db : List Row
  cache_chrom : Nat
  cache_start : Nat
  cache_end : Nat
  cache_seq : Option (List Nat)
  fpos : Nat
  feof : Bool
  reads : Nat

/-- The function `pyfastx_init_index`; `content`, `is_gzip` and `gz_ok`
describe the file behind `file_name`. -/
def pyfastx_init_index (file_name : String) (content : List Nat) (is_gzip gz_ok : Bool)
    (uppercase memory_index : Bool) (key_func : Option (List Nat → Option (List Nat))) : Index :=
  { file_name := file_name
    index_file := if memory_index then ":memory:" else file_name ++ ".fxi"
    file := content
    uppercase := uppercase
    gzip_format := is_gzip
    gz_ok := gz_ok
    key_func := key_func
    index_db := []
    cache_chrom := 0
    cache_start := 0
    cache_end := 0
    cache_seq := none
    fpos := 0
    feof := false
    reads := 0 }

/-! ## pyfastx_create_index -/

/-- The local variables of `pyfastx_create_index` together with table `seq`
and the pending Python error. `description` and `chrom` are `none` while
the pointers are NULL. -/
structure BuildState where
  seq_normal : Nat
  line_end : Nat
  line_len : Nat
  temp_len : Nat
  bad_line : Nat
  position : Nat
  start : Nat
  seq_len : Nat
  description : Option (List Nat)
  chrom : Option (List Nat)
  seq : List Row
  pyerr : Option PyExc
deriving DecidableEq, Repr

/-- The variables as initialised before the loop, over a new empty table. -/
def buildInit : BuildState :=
  { seq_normal := 1, line_end := 1, line_len := 0, temp_len := 0, bad_line := 0
    position := 0, start := 0, seq_len := 0, description := none, chrom := none
    seq := [], pyerr := none }

/-- The row inserted by the nine `sqlite3_bind_*` calls and `sqlite3_step`
in state `st`, after `seq_normal = (bad_line > 1) ? 0 : 1;`. `blen` is the
value of the expression bound to the fourth parameter; the NULL bound to
the id makes the store assign the next rowid. -/
def boundRow (st : BuildState) (blen : Nat) : Row :=
  { id := (st.seq.length : Int) + 1
    chrom := st.chrom.map cstr
    boff := toInt64 st.start
    blen := toInt32 blen
    slen := toInt32 st.seq_len
    llen := toInt32 st.line_len
    elen := toInt32 st.line_end
    norm := toInt32 (if st.bad_line > 1 then 0 else 1)
    descr := st.description.map cstr }

/-- The statement group that finalises a record: `seq_normal` is computed
and the row is inserted. -/
def commitRow (st : BuildState) (blen : Nat) : BuildState :=
  { st with
    seq_normal := if st.bad_line > 1 then 0 else 1
    seq := st.seq ++ [boundRow st blen] }

/-- The body of the `while` loop for one line, in a run that gets past the
line. The description handed to the key policy is the C string copied from
the line: the bytes after `>` up to the terminator part, cut at a NUL. A
key function is given by the text of the string it returns for a
description, `none` when it gives no string (it raises, or its result is
not a string). When no string comes back from the call of lines 243-245 the
process is killed there and the statements that follow are not run: see
`keyCallKills` and `scanLinesRun`, which stop the run at such a line; the
state given here for that case, with a NULL key, belongs to no run. -/
def loopBody (key_func : Option (List Nat → Option (List Nat))) (st : BuildState)
    (line : List Nat) : BuildState :=
  let position := u64 (st.position + (line.length + 1))
  if line.head? = some 62 then
    let st1 :=
      if st.start > 0 then
        commitRow { st with position := position }
          (sub64 (sub64 (sub64 position st.start) line.length) 1)
      else { st with position := position }
    let line_end := if line.getLast? = some 13 then 2 else 1
    let description := cstr ((line.drop 1).take (line.length - line_end))
    let keyed : Option (List Nat) × Option PyExc :=
      match key_func with
      | none => (some (strtok_space description), st1.pyerr)
      | some f =>
        match f description with
        | some r => (some r, st1.pyerr)
        | none => (none, st1.pyerr)
    { st1 with
      start := position
      seq_len := 0
      temp_len := 0
      line_len := 0
      line_end := line_end
      bad_line := 0
      seq_normal := 1
      description := some description
      chrom := keyed.1
      pyerr := keyed.2 }
  else
    let temp_len := u32 (line.length + 1)
    let bad_line := if st.line_len > 0 ∧ st.line_len ≠ temp_len then u32 (st.bad_line + 1) else st.bad_line
    let line_len := if st.line_len = 0 then temp_len else st.line_len
    let real_len := u32 (u64 (sub64 line.length st.line_end + 1))
    { st with
      position := position
      temp_len := temp_len
      bad_line := bad_line
      line_len := line_len
      seq_len := u32 (st.seq_len + real_len) }

/-- The whole loop: the body is run on each line the reader delivers. -/
def scanLines (key_func : Option (List Nat → Option (List Nat))) (st : BuildState)
    (lines : List (List Nat)) : BuildState :=
  lines.foldl (loopBody key_func) st

/-- The statements after the loop: the last open record is committed with
byte length `position - start`. -/
def finishBuild (st : BuildState) : BuildState :=
  commitRow st (sub64 st.position st.start)

/-- The variables and table `seq` at the end of `pyfastx_create_index` run
with key function `key_func` over the stream `stream`. -/
def buildIndex (key_func : Option (List Nat → Option (List Nat))) (stream : List Nat) : BuildState :=
  finishBuild (scanLines key_func buildInit (ksLines stream))

/-- The function `pyfastx_create_index` in a run that returns: the store of
`self` receives the rows built from the stream of `self`; the second
component is the Python error left pending, if any. Opening the store,
creating the schema and starting the transaction are taken to succeed here
(their failure paths return before the loop), and so are the inserts; the
gzip index built at the end does not touch table `seq`. Whether the run
returns is told by `pyfastx_create_index_run`. -/
def pyfastx_create_index (self : Index) : Index × Option PyExc :=
  let st := buildIndex self.key_func self.file
  ({ self with index_db := st.seq }, st.pyerr)

/-- State of the strict UTF-8 decoder of the interpreter
(`PyUnicode_FromString`, used by the format `"s"` of
`PyObject_CallFunction`) run over a text: `need` continuation bytes are
still expected and the next one has to lie in `lo..hi`. The text is valid
when it ends with no byte expected. Overlong forms, surrogates and code
points above U+10FFFF are refused. -/
def utf8_scan : Nat → Nat → Nat → List Nat → Bool
  | need, _, _, [] => need == 0
  | 0, _, _, b :: rest =>
    if b < 128 then utf8_scan 0 128 191 rest
    else if 194 ≤ b ∧ b ≤ 223 then utf8_scan 1 128 191 rest
    else if b = 224 then utf8_scan 2 160 191 rest
    else if (225 ≤ b ∧ b ≤ 236) ∨ b = 238 ∨ b = 239 then utf8_scan 2 128 191 rest
    else if b = 237 then utf8_scan 2 128 159 rest
    else if b = 240 then utf8_scan 3 144 191 rest
    else if 241 ≤ b ∧ b ≤ 243 then utf8_scan 3 128 191 rest
    else if b = 244 then utf8_scan 3 128 143 rest
    else false
  | need + 1, lo, hi, b :: rest =>
    if lo ≤ b ∧ b ≤ hi then utf8_scan need 128 191 rest else false

/-- Whether a text is valid UTF-8. -/
def utf8_valid (s : List Nat) : Bool := utf8_scan 0 128 191 s

/-- Whether the statements of the loop for `line` kill the process. This
happens on a header line when a key function is set (lines 242-245) and no
string comes back from its call: either the description is not valid
UTF-8, so that `PyObject_CallFunction(key_func, "s", description)` cannot
build its argument and returns NULL, or the function raises (NULL again),
or its result is not a string. `PyUnicode_AsUTF8(result)` is then run on
NULL or on an object that is not a string, after `PyGILState_Release` and
inside the `Py_BEGIN_ALLOW_THREADS` block opened before the loop: it reads
through the NULL pointer, or raises with the thread state detached. With
the default key policy no call into the interpreter is made. -/
def keyCallKills (key_func : Option (List Nat → Option (List Nat))) (line : List Nat) : Bool :=
  match key_func with
  | none => false
  | some f =>
    if line.head? = some 62 then
      let line_end := if line.getLast? = some 13 then 2 else 1
      let description := cstr ((line.drop 1).take (line.length - line_end))
      !utf8_valid description || (f description).isNone
    else false

/-- The loop with the death of the process made explicit: `none` when the
statements run for some line kill the process, and no line after that one
is read; otherwise the state the loop ends in. -/
def scanLinesRun (key_func : Option (List Nat → Option (List Nat))) :
    BuildState → List (List Nat) → Option BuildState
  | st, [] => some st
  | st, line :: rest =>
    if keyCallKills key_func line = true then none
    else scanLinesRun key_func (loopBody key_func st line) rest

/-- The function `pyfastx_create_index` with the way its run ends: killed in
the loop, at the first header line whose key call gives no string, or
returned after the final commit. A killed run returns nothing and raises
nothing that a caller could catch; the transaction opened before the loop
is never committed. -/
def pyfastx_create_index_run (self : Index) : Run (Index × Option PyExc) :=
  match scanLinesRun self.key_func buildInit (ksLines self.file) with
  | none => Run.killed
  | some st => Run.returned ({ self with index_db := (finishBuild st).seq }, (finishBuild st).pyerr)

/-! ## Lookups -/

/-- The object `pyfastx_Sequence` filled by `pyfastx_index_make_seq`. The
integer fields hold the values returned by `sqlite3_column_int` /
`sqlite3_column_int64` (the field types are declared in sequence.h, which
is not among the sources). -/
structure Sequence where
  id : Int
  name : List Nat
  offset : Int
  byte_len : Int
  seq_len : Int
  parent_len : Int
  line_len : Int
  end_len : Int
  normal : Int
  start : Int
  seq_end : Int
deriving DecidableEq, Repr

/-- The function `pyfastx_index_make_seq` on the row the statement stands
on. A NULL text column has zero bytes. -/
def pyfastx_index_make_seq (row : Row) : Sequence :=
  { id := columnInt row.id
    name := (row.chrom.getD [])
    offset := row.boff
    byte_len := columnInt row.blen
    seq_len := columnInt row.slen
    parent_len := columnInt row.slen
    line_len := columnInt row.llen
    end_len := columnInt row.elen
    normal := columnInt row.norm
    start := 1
    seq_end := columnInt row.slen }

/-- The query `SELECT ... FROM seq WHERE ID=? LIMIT 1` with the `uint32_t`
argument bound through `sqlite3_bind_int`. -/
def selectById (db : List Row) (chrom : Nat) : Option Row :=
  db.find? (fun r => decide (r.id = toInt32 chrom))

/-- The function `pyfastx_index_get_seq_by_id`. -/
def pyfastx_index_get_seq_by_id (self : Index) (chrom : Nat) : Except PyExc Sequence :=
  match selectById self.index_db chrom with
  | none => Except.error (PyExc.IndexError (bytes "Index Error"))
  | some row => Except.ok (pyfastx_index_make_seq row)

/-! ## Cached fetch -/

/-- The call `fseek(fd, offset, SEEK_SET)`: a negative offset is refused and
leaves the stream as it is; otherwise the position is set and the
end-of-file indicator cleared. Result: position and indicator. -/
def fseek_set (fpos : Nat) (feof : Bool) (offset : Int) : Nat × Bool :=
  if offset < 0 then (fpos, feof) else (offset.toNat, false)

/-- The call `fread(buf, bytes, 1, fd)` on file content `file` at position
`fpos`, into a buffer whose memory holds `mem`. Result: return value,
memory of the buffer, new position, new end-of-file indicator. An item of
size 0 reads nothing; an item that does not fit before the end of the file
is read as far as the file goes and sets the indicator. -/
def fread_item (file : List Nat) (fpos : Nat) (feof : Bool) (nbytes : Nat) (mem : List Nat) :
    Nat × List Nat × Nat × Bool :=
  if nbytes = 0 then (0, mem, fpos, feof)
  else
    let got := (file.drop fpos).take nbytes
    if got.length = nbytes then (1, got ++ mem.drop got.length, fpos + nbytes, feof)
    else (0, got ++ mem.drop got.length, fpos + got.length, true)

/-- Modelled from the spec: the gzip random-access adapter (zran.c, not among
the sources), for the call pair `zran_seek(index, offset, SEEK_SET, NULL)`,
`zran_read(index, buf, len)`. The spec has seek followed by read return the
next `len` decompressed bytes at the offset, identical to decompressing
from the start and discarding a prefix, and has malformed or truncated
compressed input surface a failure. Result: the return value of
`zran_read` and the memory of the buffer, untouched on failure. -/
def zran_seek_read (gz_ok : Bool) (stream : List Nat) (offset : Int) (len : Nat)
    (mem : List Nat) : Int × List Nat :=
  if gz_ok = false ∨ offset < 0 then (-1, mem)
  else
    let got := (stream.drop offset.toNat).take len
    ((got.length : Int), got ++ mem.drop got.length)

/-- The tail of `pyfastx_index_get_full_seq` after the read: the buffer is
terminated at index `nbytes`, normalised, and recorded as the cache entry
`(chrom, 1, seq_len)`. -/
def storeFetched (self : Index) (chrom seq_len nbytes : Nat) (mem : List Nat) :
    Except Failure (Option (List Nat)) × Index :=
  let text := cstr (mem.take nbytes)
  let norm := if self.uppercase then remove_space_uppercase text else remove_space text
  (Except.ok (some norm),
   { self with cache_seq := some norm, cache_chrom := chrom, cache_start := 1, cache_end := seq_len })

/-- The function `pyfastx_index_get_full_seq`. `uninit` is what the memory
handed out by `malloc` holds before it is written (bytes it does not list
read as NUL). A `char *` result is given by the C string it points to; the
result is the returned pointer (`none` for NULL) or the way the call fails,
and the index afterwards. The KeyError of a missing row is raised before
`Py_BEGIN_ALLOW_THREADS` and returns to the caller. The read error
(lines 441-445) is raised after it, with the thread state detached, and
kills the process: the second component is then the object as it stands in
memory at that moment (the new block already stored in `cache_seq`, the
cache id and range as they were), and no call comes after it. -/
def pyfastx_index_get_full_seq (self : Index) (chrom : Nat) (uninit : List Nat) :
    Except Failure (Option (List Nat)) × Index :=
  match selectById self.index_db chrom with
  | none =>
    (Except.error (Failure.raised (PyExc.KeyError (bytes "Can not found sequence"))), self)
  | some row =>
    let offset := row.boff
    let nbytes := columnU32 row.blen
    let seq_len := columnU32 row.slen
    if chrom = self.cache_chrom ∧ 1 = self.cache_start ∧ seq_len = self.cache_end then
      (Except.ok self.cache_seq, self)
    else if self.gzip_format then
      let r := zran_seek_read self.gz_ok self.file offset nbytes uninit
      storeFetched { self with reads := self.reads + 1 } chrom seq_len nbytes r.2
    else
      let sk := fseek_set self.fpos self.feof offset
      let rd := fread_item self.file sk.1 sk.2 nbytes uninit
      let self1 := { self with fpos := rd.2.2.1, feof := rd.2.2.2, reads := self.reads + 1 }
      if rd.1 ≠ 1 ∧ rd.2.2.2 = false then
        (Except.error (Failure.killed (PyExc.RuntimeError (bytes "reading sequence error"))),
         { self1 with cache_seq := some (cstr rd.2.1) })
      else storeFetched self1 chrom seq_len nbytes rd.2.1

/-- The function `pyfastx_index_cache_clear`. -/
def pyfastx_index_cache_clear (self : Index) : Index :=
  { self with cache_chrom := 0, cache_start := 0, cache_end := 0, cache_seq := none }

/-- The states an index goes through once it is built: it starts with the
cache fields written by `pyfastx_init_index` and then receives calls of
`pyfastx_index_get_full_seq` (with `uint32_t` arguments) and of
`pyfastx_index_cache_clear`. The state a killed call leaves in memory is
kept in the list, although the program makes no call after it: this only
adds states. -/
inductive Reachable : Index → Prop where
  | start (s : Index) (h1 : s.cache_chrom = 0) (h2 : s.cache_start = 0) (h3 : s.cache_end = 0)
      (h4 : s.cache_seq = none) : Reachable s
  | fetch (s : Index) (chrom : Nat) (uninit : List Nat) (hc : chrom < 4294967296)
      (h : Reachable s) : Reachable (pyfastx_index_get_full_seq s chrom uninit).2
  | clear (s : Index) (h : Reachable s) : Reachable (pyfastx_index_cache_clear s)

/-! ## Notions used to state the properties -/

/-- Number of stream bytes the loop accounts for a list of lines: every line
counts with its length plus one. -/
def lineBytes (ls : List (List Nat)) : Nat := (ls.map (fun l => l.length + 1)).sum

/-- A header line: its first byte is `>`. -/
def isHeader (l : List Nat) : Bool := decide (l.head? = some 62)

/-- Number of header lines among the lines of a stream. -/
def headerCount (s : List Nat) : Nat := ((ksLines s).filter isHeader).length

/-- Number of header lines in a list of lines. -/
def headerLines (ls : List (List Nat)) : Nat := (ls.filter isHeader).length

/-- Number of body lines after the first one, the final one included, whose
length differs from the length of the first body line. -/
def deviating (B : List (List Nat)) : Nat :=
  match B with
  | [] => 0
  | l0 :: rest => (rest.filter (fun l => decide (l.length ≠ l0.length))).length

/-- Width of the first body line, its newline included; 0 without a body line. -/
def firstWidth (B : List (List Nat)) : Nat :=
  match B with
  | [] => 0
  | l0 :: _ => l0.length + 1

/-- A header text without the `\r` that ends it under `\r\n` line ends. -/
def stripCR (hdr : List Nat) : List Nat :=
  if hdr.getLast? = some 13 then hdr.dropLast else hdr

/-- The key the loop derives from a description: the default policy, or the
result of the key function (`none` when that is not a string). -/
def keyOf (kf : Option (List Nat → Option (List Nat))) (d : List Nat) : Option (List Nat) :=
  match kf with
  | none => some (strtok_space d)
  | some f => f d

/-- An index over an uncompressed file with the given content, in memory
mode, before it is built; used for concrete examples. -/
def sampleIndex (content : List Nat) (uppercase : Bool)
    (key_func : Option (List Nat → Option (List Nat))) : Index :=
  pyfastx_init_index "seq.fa" content false true uppercase true key_func

/-- The line terminator of a text: `\r\n` or `\n`. -/
def terminator (crlf : Bool) : List Nat := if crlf then [13, 10] else [10]

/-- The text made of the given line contents, each followed by the terminator. -/
def bodyText (crlf : Bool) : List (List Nat) → List Nat
  | [] => []
  | l :: ls => l ++ terminator crlf ++ bodyText crlf ls

/-- Number of bytes of a text that are not line-terminator characters
(neither `\n` nor `\r`). -/
def nonTerminators (s : List Nat) : Nat := (s.filter (fun c => decide (c ≠ 10 ∧ c ≠ 13))).length

/-- The leading token of a text split at its first run of whitespace
characters, in the words of the specification of the default key policy. -/
def leadingToken (d : List Nat) : List Nat := d.takeWhile (fun c => !isspace c)

/-- A key function that uppercases its input. -/
def upperKey : List Nat → Option (List Nat) := fun d => some (d.map toupper)

/-- The index built over the uncompressed file
`>chr1 desc\nACGT\nAC\n>chr2\nTTTT\n`, before any fetch. -/
def builtSample : Index :=
  (pyfastx_create_index (sampleIndex (bytes ">chr1 desc\nACGT\nAC\n>chr2\nTTTT\n") false none)).1

/-! ## Store failures during the build -/

/-- Outcomes of the store calls of one run of `pyfastx_create_index`: whether
the `sqlite3_exec` of the schema and the `sqlite3_exec` of
`BEGIN TRANSACTION` return SQLITE_OK, whether the call number `k` of
`sqlite3_step` (counted from 0) inserts its row, and the text
`sqlite3_errmsg` gives for a failure. -/
structure StoreCalls where
  schema_ok : Bool
  begin_ok : Bool
  step_ok : Nat → Bool
  errmsg : List Nat

/-- The statement group that finalises a record, when the store may refuse the
insert: the return value of `sqlite3_step` is not looked at, so a refused
insert leaves the table as it is and the code goes on. The second
component counts the calls of `sqlite3_step`. -/
def commitRowWith (calls : StoreCalls) (sn : BuildState × Nat) (blen : Nat) : BuildState × Nat :=
  if calls.step_ok sn.2 then (commitRow sn.1 blen, sn.2 + 1)
  else ({ sn.1 with seq_normal := if sn.1.bad_line > 1 then 0 else 1 }, sn.2 + 1)

/-- The body of the `while` loop for one line, when the store may refuse
inserts. -/
def loopBodyWith (calls : StoreCalls) (key_func : Option (List Nat → Option (List Nat)))
    (sn : BuildState × Nat) (line : List Nat) : BuildState × Nat :=
  let st := sn.1
  let position := u64 (st.position + (line.length + 1))
  if line.head? = some 62 then
    let sn1 :=
      if st.start > 0 then
        commitRowWith calls ({ st with position := position }, sn.2)
          (sub64 (sub64 (sub64 position st.start) line.length) 1)
      else ({ st with position := position }, sn.2)
    let st1 := sn1.1
    let line_end := if line.getLast? = some 13 then 2 else 1
    let description := cstr ((line.drop 1).take (line.length - line_end))
    let keyed : Option (List Nat) × Option PyExc :=
      match key_func with
      | none => (some (strtok_space description), st1.pyerr)
      | some f =>
        match f description with
        | some r => (some r, st1.pyerr)
        | none => (none, st1.pyerr)
    ({ st1 with
       start := position
       seq_len := 0
       temp_len := 0
       line_len := 0
       line_end := line_end
       bad_line := 0
       seq_normal := 1
       description := some description
       chrom := keyed.1
       pyerr := keyed.2 }, sn1.2)
  else
    let temp_len := u32 (line.length + 1)
    let bad_line := if st.line_len > 0 ∧ st.line_len ≠ temp_len then u32 (st.bad_line + 1) else st.bad_line
    let line_len := if st.line_len = 0 then temp_len else st.line_len
    let real_len := u32 (u64 (sub64 line.length st.line_end + 1))
    ({ st with
       position := position
       temp_len := temp_len
       bad_line := bad_line
       line_len := line_len
       seq_len := u32 (st.seq_len + real_len) }, sn.2)

/-- The function `pyfastx_create_index` when store calls may fail: a failure
of the schema or of `BEGIN TRANSACTION` raises RuntimeError and returns;
after that the loop and the final commit run, and the results of
`sqlite3_step`, of `CREATE INDEX` and of `COMMIT` are not looked at. -/
def pyfastx_create_index_with (calls : StoreCalls) (self : Index) : Index × Option PyExc :=
  if calls.schema_ok = false then
    ({ self with index_db := [] }, some (PyExc.RuntimeError calls.errmsg))
  else if calls.begin_ok = false then
    ({ self with index_db := [] }, some (PyExc.RuntimeError calls.errmsg))
  else
    let sn := (ksLines self.file).foldl (loopBodyWith calls self.key_func) (buildInit, 0)
    let fin := commitRowWith calls sn (sub64 sn.1.position sn.1.start)
    ({ self with index_db := fin.1.seq }, fin.1.pyerr)

/-! ## Build or load -/

/-- Modelled from the spec: `file_exists` of util.c, which is not among the
sources: the existence check used to decide between building and loading.
The file system is given by what it holds at each path: `none` when no file
exists there, else the rows of table `seq` stored in the file. -/
def file_exists (fs : String → Option (List Row)) (path : String) : Bool := (fs path).isSome

/-- The function `pyfastx_load_index`: `sqlite3_open` on the path `:memory:`
opens a new, empty in-memory database, whatever the file system holds; on
another path it opens the store kept in that file. -/
def pyfastx_load_index (fs : String → Option (List Row)) (self : Index) : Index :=
  { self with index_db := if self.index_file = ":memory:" then [] else (fs self.index_file).getD [] }

/-- The branch `pyfastx_build_index` takes. -/
inductive BuildPath where
  | load
  | create
deriving DecidableEq, Repr

/-- The function `pyfastx_build_index`; the last component tells which branch
ran. -/
def pyfastx_build_index (fs : String → Option (List Row)) (self : Index) :
    Index × Option PyExc × BuildPath :=
  if file_exists fs self.index_file then (pyfastx_load_index fs self, none, BuildPath.load)
  else ((pyfastx_create_index self).1, (pyfastx_create_index self).2, BuildPath.create)

/-! ## The gzip random-access adapter -/

/-- Modelled from the spec: a compressed stream as the inflater sees it
(zran.c and zlib are not among the sources): a start state and a step that
yields the next decompressed byte with the following state, or nothing at
the end of the stream. A state stands for a position in the compressed
input together with the window of decompressed history needed to resume
there. -/
structure GzStream (σ : Type) where
  start : σ
  step : σ → Option (Nat × σ)

/-- Inflating up to `n` bytes from a state: the bytes and the state reached. -/
def inflateFrom {σ : Type} (z : GzStream σ) : Nat → σ → List Nat × σ
  | 0, s => ([], s)
  | n + 1, s =>
    match z.step s with
    | none => ([], s)
    | some (b, s1) => (b :: (inflateFrom z n s1).1, (inflateFrom z n s1).2)

/-- The stream obtained by decompressing the whole file, of `total`
decompressed bytes, from the start. -/
def inflateAll {σ : Type} (z : GzStream σ) (total : Nat) : List Nat :=
  (inflateFrom z total z.start).1

/-- Modelled from the spec: the checkpoint table built by a forward scan: a
checkpoint (uncompressed offset, saved state) is recorded every `span`
bytes, `count` times, from offset `off` in state `s`. (The spec spaces the
checkpoints by compressed bytes; the spacing plays no part in what is
read.) -/
def zran_build_index {σ : Type} (z : GzStream σ) (span : Nat) : Nat → Nat → σ → List (Nat × σ)
  | 0, _, _ => []
  | k + 1, off, s => (off, s) :: zran_build_index z span k (off + span) (inflateFrom z span s).2

/-- Modelled from the spec: the nearest checkpoint at or before the target,
starting from the candidate `best`. -/
def zran_nearest {σ : Type} (pts : List (Nat × σ)) (target : Nat) (best : Nat × σ) : Nat × σ :=
  match pts with
  | [] => best
  | p :: rest =>
    if p.1 ≤ target ∧ best.1 ≤ p.1 then zran_nearest rest target p
    else zran_nearest rest target best

/-- Modelled from the spec: `zran_seek` to an uncompressed offset: inflation
resumes at the nearest checkpoint at or before the target (the start of the
stream when there is none) and runs forward to the target. -/
def zran_seek {σ : Type} (z : GzStream σ) (pts : List (Nat × σ)) (target : Nat) : σ :=
  (inflateFrom z (target - (zran_nearest pts target (0, z.start)).1)
    (zran_nearest pts target (0, z.start)).2).2

/-- Modelled from the spec: `zran_read`: the next `n` decompressed bytes from
the current position. -/
def zran_read {σ : Type} (z : GzStream σ) (s : σ) (n : Nat) : List Nat × σ := inflateFrom z n s

/-- A small compressed stream for examples: it inflates to the 12 bytes
`ABCDEFGHIJKL`; the state is the number of bytes delivered. -/
def sampleGz : GzStream Nat :=
  { start := 0, step := fun k => if k < 12 then some (65 + k, k + 1) else none }

/-! ## Further notions used to state the properties -/

/-- The per-record counters after the body lines `B` of a record whose header
set the terminator width `e`: the loop run from the state a header leaves. -/
def bodyScan (e : Nat) (B : List (List Nat)) : BuildState :=
  scanLines none { buildInit with line_end := e } B

/-- Terminator width detected on a header line: 2 when it ends with `\r`. -/
def lineEndOf (h : List Nat) : Nat := if h.getLast? = some 13 then 2 else 1

/-- The index built over the uncompressed file `>a\nAC\n>e\n`, whose second
record has no body line, before any fetch. -/
def builtEmptyRecord : Index :=
  (pyfastx_create_index (sampleIndex (bytes ">a\nAC\n>e\n") false none)).1

/-- The index built over the uncompressed file `>a\nAC`, whose last line has
no newline, before any fetch. -/
def builtUnterminated : Index :=
  (pyfastx_create_index (sampleIndex (bytes ">a\nAC") false none)).1

/-- Store calls in which everything succeeds except the first insert. -/
def refuseFirstInsert : StoreCalls :=
  { schema_ok := true, begin_ok := true, step_ok := fun k => decide (k ≠ 0)
    errmsg := bytes "database or disk is full" }

/-- A file system that holds a single file, named `:memory:`, with an empty
store in it. -/
def memoryNamedFile : String → Option (List Row) :=
  fun path => if path = ":memory:" then some [] else none

/-- The index built over a gzip source that decompresses to `>a\nAC\n` and
whose random-access adapter reports failures, before any fetch. -/
def builtBrokenGz : Index :=
  (pyfastx_create_index
    (pyfastx_init_index "seq.fa.gz" (bytes ">a\nAC\n") true false false true none)).1

/-- The stream made of the header line `>a`, an empty body line, two body
lines of `n` bytes `A` each, and the body line `A`; every line ends with a
newline. -/
def wideLinesStream (n : Nat) : List Nat :=
  (62 :: [97]) ++ (10 :: (10 :: (List.replicate n 65 ++
    10 :: (List.replicate n 65 ++ 10 :: ([65] ++ 10 :: [])))))

/-- The stream made of the header line `>a` and one body line of `n` bytes
`A`; both lines end with a newline. -/
def longLineStream (n : Nat) : List Nat :=
  (62 :: [97]) ++ (10 :: (List.replicate n 65 ++ 10 :: []))

theorem u32_of_lt {n : Nat} (h : n < 4294967296) : u32 n = n := by
  unfold u32; omega

theorem u64_of_lt {n : Nat} (h : n < 18446744073709551616) : u64 n = n := by
  unfold u64; omega

theorem sub64_of_le {a b : Nat} (hb : b ≤ a) (ha : a < 18446744073709551616) :
    sub64 a b = a - b := by
  unfold sub64 u64; omega

theorem toInt32_of_lt {n : Nat} (h : n < 2147483648) : toInt32 n = (n : Int) := by
  unfold toInt32
  have h1 : n % 4294967296 = n := by omega
  rw [h1, if_pos h]

theorem toInt64_of_lt {n : Nat} (h : n < 9223372036854775808) : toInt64 n = (n : Int) := by
  unfold toInt64
  have h1 : n % 18446744073709551616 = n := by omega
  rw [h1, if_pos h]

theorem toInt64_nonneg_of_lt {n : Nat} (h : n < 9223372036854775808) : 0 ≤ toInt64 n := by
  rw [toInt64_of_lt h]; exact Int.ofNat_nonneg n

/-! ### The line reader -/

/-- The list of lines is what repeated calls of `ks_getuntil` deliver. -/
theorem ksLines_unfold (s : List Nat) :
    ksLines s = match ks_getuntil s with
      | none => []
      | some (l, rest) => l :: ksLines rest := by
  induction s with
  | nil => simp [ksLines, ks_getuntil]
  | cons c rest ih =>
    by_cases hc : c = 10
    · subst hc
      simp [ksLines, ks_getuntil]
    · cases rest with
      | nil => simp [ksLines, ks_getuntil, hc]
      | cons d r =>
        rw [ksLines, if_neg hc, ih]
        simp [ks_getuntil, hc]

theorem ksLines_ne_nil {s : List Nat} (h : s ≠ []) : ksLines s ≠ [] := by
  cases s with
  | nil => exact absurd rfl h
  | cons c rest =>
    by_cases hc : c = 10
    · simp [ksLines, hc]
    · rw [ksLines, if_neg hc]
      cases ksLines rest <;> simp

theorem ksLines_line (l rest : List Nat) (h : 10 ∉ l) :
    ksLines (l ++ 10 :: rest) = l :: ksLines rest := by
  induction l with
  | nil => simp [ksLines]
  | cons c l ih =>
    have hc : c ≠ 10 := fun e => h (by simp [e])
    have hl : 10 ∉ l := fun e => h (by simp [e])
    rw [List.cons_append, ksLines, if_neg hc, ih hl]

theorem ksLines_last (l : List Nat) (h : 10 ∉ l) (hne : l ≠ []) : ksLines l = [l] := by
  induction l with
  | nil => exact absurd rfl hne
  | cons c l ih =>
    have hc : c ≠ 10 := fun e => h (by simp [e])
    have hl : 10 ∉ l := fun e => h (by simp [e])
    rw [ksLines, if_neg hc]
    cases l with
    | nil => simp [ksLines]
    | cons d l => rw [ih hl (by simp)]

theorem terminated_tail {c : Nat} {a : List Nat} (h : (c :: a) = [] ∨ (c :: a).getLast? = some 10)
    (ha : a ≠ []) : a = [] ∨ a.getLast? = some 10 := by
  rcases h with h | h
  · exact absurd h (by simp)
  · right
    cases a with
    | nil => exact absurd rfl ha
    | cons d a => simpa [List.getLast?_cons_cons] using h

theorem ksLines_append (a b : List Nat) (ha : a = [] ∨ a.getLast? = some 10) :
    ksLines (a ++ b) = ksLines a ++ ksLines b := by
  induction a with
  | nil => simp [ksLines]
  | cons c a ih =>
    by_cases hc : c = 10
    · subst hc
      by_cases hnil : a = []
      · subst hnil; simp [ksLines]
      · rw [List.cons_append, ksLines, if_pos rfl, ksLines, if_pos rfl, ih (terminated_tail ha hnil)]
        rfl
    · have hnil : a ≠ [] := by
        intro e
        subst e
        rcases ha with ha | ha
        · simp at ha
        · simp at ha; exact hc ha
      rw [List.cons_append, ksLines, if_neg hc, ksLines, if_neg hc, ih (terminated_tail ha hnil)]
      have := ksLines_ne_nil hnil
      cases hk : ksLines a with
      | nil => exact absurd hk this
      | cons l ls => simp

/-- The loop accounts for one byte more than the stream holds exactly when
the last line has no newline. -/
theorem lineBytes_ksLines (s : List Nat) :
    lineBytes (ksLines s) = s.length + (if s = [] ∨ s.getLast? = some 10 then 0 else 1) := by
  induction s with
  | nil => simp [ksLines, lineBytes]
  | cons c rest ih =>
    by_cases hc : c = 10
    · subst hc
      rw [ksLines, if_pos rfl]
      cases rest with
      | nil => simp [ksLines, lineBytes]
      | cons d r =>
        have e : lineBytes ([] :: ksLines (d :: r)) = lineBytes (ksLines (d :: r)) + 1 := by
          simp [lineBytes]; omega
        rw [e, ih]
        simp [List.getLast?_cons_cons]
        omega
    · rw [ksLines, if_neg hc]
      cases rest with
      | nil => simp [ksLines, lineBytes, hc]
      | cons d r =>
        have hne := ksLines_ne_nil (s := d :: r) (by simp)
        cases hk : ksLines (d :: r) with
        | nil => exact absurd hk hne
        | cons l ls =>
          rw [hk] at ih
          have e : lineBytes ((c :: l) :: ls) = lineBytes (l :: ls) + 1 := by
            simp [lineBytes]; omega
          simp only [e, ih]
          simp [List.getLast?_cons_cons]
          omega

theorem lineBytes_ksLines_terminated (s : List Nat) (h : s = [] ∨ s.getLast? = some 10) :
    lineBytes (ksLines s) = s.length := by
  rw [lineBytes_ksLines, if_pos h]; rfl

theorem lineBytes_ksLines_le (s : List Nat) : lineBytes (ksLines s) ≤ s.length + 1 := by
  rw [lineBytes_ksLines]; split <;> omega

theorem lineBytes_append (a b : List (List Nat)) :
    lineBytes (a ++ b) = lineBytes a + lineBytes b := by
  simp [lineBytes]

theorem lineBytes_cons (l : List Nat) (b : List (List Nat)) :
    lineBytes (l :: b) = l.length + 1 + lineBytes b := by
  simp [lineBytes]

/-! ### The loop body -/

theorem loopBody_body (kf : Option (List Nat → Option (List Nat))) (st : BuildState)
    (line : List Nat) (h : isHeader line = false) :
    loopBody kf st line =
      { st with
        position := u64 (st.position + (line.length + 1))
        temp_len := u32 (line.length + 1)
        bad_line := if st.line_len > 0 ∧ st.line_len ≠ u32 (line.length + 1)
                    then u32 (st.bad_line + 1) else st.bad_line
        line_len := if st.line_len = 0 then u32 (line.length + 1) else st.line_len
        seq_len := u32 (st.seq_len + u32 (u64 (sub64 line.length st.line_end + 1))) } := by
  have h1 : ¬ line.head? = some 62 := by simpa [isHeader] using h
  unfold loopBody
  simp only [if_neg h1]

/-- The text handed to the key policy for a header line: the line without
its first byte and without its terminator part, as a C string. -/
theorem loopBody_header_description (kf : Option (List Nat → Option (List Nat))) (st : BuildState)
    (line : List Nat) (h : isHeader line = true) :
    (loopBody kf st line).description =
      some (cstr ((line.drop 1).take (line.length - (if line.getLast? = some 13 then 2 else 1)))) := by
  have h1 : line.head? = some 62 := by simpa [isHeader] using h
  unfold loopBody
  simp only [if_pos h1]

theorem loopBody_header_fields (kf : Option (List Nat → Option (List Nat))) (st : BuildState)
    (line : List Nat) (h : isHeader line = true) :
    (loopBody kf st line).start = u64 (st.position + (line.length + 1)) ∧
    (loopBody kf st line).position = u64 (st.position + (line.length + 1)) ∧
    (loopBody kf st line).seq_len = 0 ∧ (loopBody kf st line).line_len = 0 ∧
    (loopBody kf st line).bad_line = 0 ∧
    (loopBody kf st line).line_end = (if line.getLast? = some 13 then 2 else 1) := by
  have h1 : line.head? = some 62 := by simpa [isHeader] using h
  unfold loopBody
  simp only [if_pos h1]
  by_cases hs : st.start > 0 <;> simp [hs, commitRow]

theorem loopBody_header_chrom (kf : Option (List Nat → Option (List Nat))) (st : BuildState)
    (line : List Nat) (h : isHeader line = true) :
    (loopBody kf st line).chrom =
      match kf with
      | none => some (strtok_space
          (cstr ((line.drop 1).take (line.length - (if line.getLast? = some 13 then 2 else 1)))))
      | some f => f (cstr ((line.drop 1).take (line.length - (if line.getLast? = some 13 then 2 else 1)))) := by
  have h1 : line.head? = some 62 := by simpa [isHeader] using h
  unfold loopBody
  simp only [if_pos h1]
  cases kf with
  | none => rfl
  | some f =>
    simp only
    cases f (cstr ((line.drop 1).take (line.length - (if line.getLast? = some 13 then 2 else 1)))) <;> rfl

theorem loopBody_header_seq (kf : Option (List Nat → Option (List Nat))) (st : BuildState)
    (line : List Nat) (h : isHeader line = true) :
    (loopBody kf st line).seq =
      if st.start > 0 then
        st.seq ++ [boundRow st (sub64 (sub64 (sub64 (u64 (st.position + (line.length + 1))) st.start)
          line.length) 1)]
      else st.seq := by
  have h1 : line.head? = some 62 := by simpa [isHeader] using h
  unfold loopBody
  simp only [if_pos h1]
  by_cases hs : st.start > 0 <;> simp [hs, commitRow, boundRow]

/-! ### The loop -/

theorem scanLines_nil (kf : Option (List Nat → Option (List Nat))) (st : BuildState) :
    scanLines kf st [] = st := rfl

theorem scanLines_cons (kf : Option (List Nat → Option (List Nat))) (st : BuildState)
    (l : List Nat) (ls : List (List Nat)) :
    scanLines kf st (l :: ls) = scanLines kf (loopBody kf st l) ls := rfl

theorem scanLines_append (kf : Option (List Nat → Option (List Nat))) (st : BuildState)
    (a b : List (List Nat)) :
    scanLines kf st (a ++ b) = scanLines kf (scanLines kf st a) b := by
  simp [scanLines, List.foldl_append]

/-- Rows are only ever appended: a row keeps its place in the table. -/
theorem loopBody_seq_getElem? (kf : Option (List Nat → Option (List Nat))) (st : BuildState)
    (line : List Nat) (i : Nat) (hi : i < st.seq.length) :
    (loopBody kf st line).seq[i]? = st.seq[i]? := by
  cases h : isHeader line with
  | false => rw [loopBody_body kf st line h]
  | true =>
    rw [loopBody_header_seq kf st line h]
    split
    · exact List.getElem?_append_left hi
    · rfl

theorem loopBody_seq_length_le (kf : Option (List Nat → Option (List Nat))) (st : BuildState)
    (line : List Nat) : st.seq.length ≤ (loopBody kf st line).seq.length := by
  cases h : isHeader line with
  | false => rw [loopBody_body kf st line h]
  | true =>
    rw [loopBody_header_seq kf st line h]
    split <;> simp

theorem scanLines_seq_getElem? (kf : Option (List Nat → Option (List Nat)))
    (lines : List (List Nat)) (st : BuildState) (i : Nat) (hi : i < st.seq.length) :
    (scanLines kf st lines).seq[i]? = st.seq[i]? := by
  induction lines generalizing st with
  | nil => rfl
  | cons l ls ih =>
    rw [scanLines_cons, ih (loopBody kf st l)
      (Nat.lt_of_lt_of_le hi (loopBody_seq_length_le kf st l)), loopBody_seq_getElem? kf st l i hi]

theorem finishBuild_seq_getElem? (st : BuildState) (i : Nat) (hi : i < st.seq.length) :
    (finishBuild st).seq[i]? = st.seq[i]? := by
  simp only [finishBuild, commitRow]
  exact List.getElem?_append_left hi

theorem finishBuild_seq_last (st : BuildState) :
    (finishBuild st).seq[st.seq.length]? = some (boundRow st (sub64 st.position st.start)) := by
  simp [finishBuild, commitRow]

/-- Body lines leave the table and the fields set at the header untouched and
advance the position by their bytes. -/
theorem scanLines_body (kf : Option (List Nat → Option (List Nat))) (B : List (List Nat))
    (st : BuildState) (hB : ∀ l ∈ B, isHeader l = false)
    (hsz : st.position + lineBytes B < 18446744073709551616) :
    (scanLines kf st B).seq = st.seq ∧ (scanLines kf st B).start = st.start ∧
    (scanLines kf st B).chrom = st.chrom ∧ (scanLines kf st B).description = st.description ∧
    (scanLines kf st B).line_end = st.line_end ∧ (scanLines kf st B).pyerr = st.pyerr ∧
    (scanLines kf st B).position = st.position + lineBytes B := by
  induction B generalizing st with
  | nil => simp [scanLines_nil, lineBytes]
  | cons l ls ih =>
    have hl : isHeader l = false := hB l (by simp)
    have hls : ∀ x ∈ ls, isHeader x = false := fun x hx => hB x (by simp [hx])
    rw [lineBytes_cons] at hsz
    have hp : (loopBody kf st l).position = st.position + (l.length + 1) := by
      rw [loopBody_body kf st l hl]
      exact u64_of_lt (by omega)
    have := ih (loopBody kf st l) hls (by rw [hp]; omega)
    rw [scanLines_cons, lineBytes_cons]
    obtain ⟨h1, h2, h3, h4, h5, h6, h7⟩ := this
    rw [h1, h2, h3, h4, h5, h6, h7, hp, loopBody_body kf st l hl]
    simp only [true_and]
    omega

theorem toInt32_eq_of_emod (n : Nat) (z : Int)
    (h : (n : Int) % 4294967296 = z % 4294967296) (h1 : -2147483648 ≤ z) (h2 : z < 2147483648) :
    toInt32 n = z := by
  unfold toInt32
  split <;> omega

/-- Every body line changes the sequence length by `line.l + 1 - line_end`,
modulo `2^32`. -/
theorem scanLines_body_seq_len (kf : Option (List Nat → Option (List Nat))) (B : List (List Nat))
    (st : BuildState) (hB : ∀ l ∈ B, isHeader l = false) :
    ((scanLines kf st B).seq_len : Int) % 4294967296 =
      ((st.seq_len : Int) + (B.map (fun l => (l.length : Int) + 1 - (st.line_end : Int))).sum)
        % 4294967296 := by
  induction B generalizing st with
  | nil => simp [scanLines_nil]
  | cons l ls ih =>
    have hl : isHeader l = false := hB l (by simp)
    have hls : ∀ x ∈ ls, isHeader x = false := fun x hx => hB x (by simp [hx])
    have h1 := ih (loopBody kf st l) hls
    have he : (loopBody kf st l).line_end = st.line_end := by rw [loopBody_body kf st l hl]
    have hs : ((loopBody kf st l).seq_len : Int) % 4294967296 =
        ((st.seq_len : Int) + ((l.length : Int) + 1 - (st.line_end : Int))) % 4294967296 := by
      rw [loopBody_body kf st l hl]
      simp only [u32, u64, sub64]
      omega
    rw [scanLines_cons, h1, he, List.map_cons, List.sum_cons]
    omega

/-- Once the first body line of a record is read, the reference width and the
count of deviating lines follow the lines read. -/
theorem scanLines_body_widths (kf : Option (List Nat → Option (List Nat))) (B : List (List Nat))
    (st : BuildState) (hB : ∀ l ∈ B, isHeader l = false) (w : Nat) (hw : 0 < w)
    (hst : st.line_len = w) (hlen : ∀ l ∈ B, l.length + 1 < 4294967296)
    (hbad : st.bad_line + B.length < 4294967296) :
    (scanLines kf st B).line_len = w ∧
    (scanLines kf st B).bad_line =
      st.bad_line + (B.filter (fun l => decide (l.length + 1 ≠ w))).length := by
  induction B generalizing st with
  | nil => simp [scanLines_nil, hst]
  | cons l ls ih =>
    have hl : isHeader l = false := hB l (by simp)
    have hls : ∀ x ∈ ls, isHeader x = false := fun x hx => hB x (by simp [hx])
    have hll : l.length + 1 < 4294967296 := hlen l (by simp)
    have hu : u32 (l.length + 1) = l.length + 1 := u32_of_lt hll
    simp only [List.length_cons] at hbad
    have h1 : (loopBody kf st l).line_len = w := by
      rw [loopBody_body kf st l hl]
      simp only
      rw [if_neg (by omega)]
      exact hst
    have h2 : (loopBody kf st l).bad_line =
        st.bad_line + (if l.length + 1 ≠ w then 1 else 0) := by
      rw [loopBody_body kf st l hl]
      simp only [hu, hst]
      by_cases hd : l.length + 1 = w
      · simp [hd]
      · have : w ≠ l.length + 1 := fun e => hd e.symm
        simp [hd, hw, this]
        exact u32_of_lt (by omega)
    have h3 := ih (loopBody kf st l) hls h1 (fun x hx => hlen x (by simp [hx]))
      (by rw [h2]; split <;> omega)
    rw [scanLines_cons, h3.1, h3.2, h2]
    refine ⟨rfl, ?_⟩
    by_cases hd : l.length + 1 = w
    · simp [hd, List.filter_cons]
    · simp [hd, List.filter_cons]
      omega

/-- From the state a header leaves, the body lines of the record produce the
width of the first body line and the number of deviating lines. -/
theorem scanLines_body_fresh (kf : Option (List Nat → Option (List Nat))) (B : List (List Nat))
    (st : BuildState) (hB : ∀ l ∈ B, isHeader l = false)
    (h0 : st.line_len = 0) (hb0 : st.bad_line = 0)
    (hlen : ∀ l ∈ B, l.length + 1 < 4294967296) (hcount : B.length < 4294967296) :
    (scanLines kf st B).line_len = firstWidth B ∧ (scanLines kf st B).bad_line = deviating B := by
  cases B with
  | nil => simp [scanLines_nil, firstWidth, deviating, h0, hb0]
  | cons l ls =>
    have hl : isHeader l = false := hB l (by simp)
    have hls : ∀ x ∈ ls, isHeader x = false := fun x hx => hB x (by simp [hx])
    have hll : l.length + 1 < 4294967296 := hlen l (by simp)
    have hu : u32 (l.length + 1) = l.length + 1 := u32_of_lt hll
    have h1 : (loopBody kf st l).line_len = l.length + 1 := by
      rw [loopBody_body kf st l hl]
      simp [h0, hu]
    have h2 : (loopBody kf st l).bad_line = 0 := by
      rw [loopBody_body kf st l hl]
      simp [h0, hb0]
    simp only [List.length_cons] at hcount
    have h3 := scanLines_body_widths kf ls (loopBody kf st l) hls (l.length + 1) (by omega) h1
      (fun x hx => hlen x (by simp [hx])) (by rw [h2]; omega)
    rw [scanLines_cons, h3.1, h3.2, h2]
    simp [firstWidth, deviating]

/-- Counting invariant of the loop: after `n` header lines the table holds
`n - 1` rows, and `start` is positive exactly when a header was read. -/
theorem scanLines_count (kf : Option (List Nat → Option (List Nat))) (lines : List (List Nat))
    (st : BuildState) (n : Nat) (h1 : st.seq.length = n - 1) (h2 : 0 < st.start ↔ 0 < n)
    (h3 : st.start ≤ st.position)
    (hsz : st.position + lineBytes lines < 18446744073709551616) :
    (scanLines kf st lines).seq.length = (n + headerLines lines) - 1 ∧
    (0 < (scanLines kf st lines).start ↔ 0 < n + headerLines lines) ∧
    (scanLines kf st lines).start ≤ (scanLines kf st lines).position ∧
    (scanLines kf st lines).position = st.position + lineBytes lines := by
  induction lines generalizing st n with
  | nil => simp [scanLines_nil, headerLines, lineBytes, h1, h2, h3]
  | cons l ls ih =>
    rw [lineBytes_cons] at hsz
    rw [scanLines_cons, lineBytes_cons]
    cases hl : isHeader l with
    | false =>
      have hb := loopBody_body kf st l hl
      have hp : (loopBody kf st l).position = st.position + (l.length + 1) := by
        rw [hb]; exact u64_of_lt (by omega)
      have := ih (loopBody kf st l) n (by rw [hb]; exact h1) (by rw [hb]; exact h2)
        (by rw [hp, hb]; simp only; omega) (by rw [hp]; omega)
      have hc : headerLines (l :: ls) = headerLines ls := by simp [headerLines, List.filter_cons, hl]
      rw [hc, hp] at *
      obtain ⟨a, b, c, d⟩ := this
      exact ⟨a, b, c, by omega⟩
    | true =>
      obtain ⟨f1, f2, -, -, -, -⟩ := loopBody_header_fields kf st l hl
      have hu : u64 (st.position + (l.length + 1)) = st.position + (l.length + 1) :=
        u64_of_lt (by omega)
      rw [hu] at f1 f2
      have hq := loopBody_header_seq kf st l hl
      have hlen : (loopBody kf st l).seq.length = (n + 1) - 1 := by
        rw [hq]
        by_cases hs : st.start > 0
        · have : 0 < n := h2.mp hs
          simp [hs, h1]; omega
        · have : ¬ 0 < n := fun e => hs (h2.mpr e)
          simp [hs, h1]; omega
      have := ih (loopBody kf st l) (n + 1) hlen (by rw [f1]; constructor <;> intro <;> omega)
        (by rw [f1, f2]) (by rw [f2]; omega)
      have hc : headerLines (l :: ls) = headerLines ls + 1 := by
        simp [headerLines, List.filter_cons, hl]
      rw [hc, f2] at *
      obtain ⟨a, b, c, d⟩ := this
      refine ⟨by rw [a]; congr 1; omega, ?_, c, by omega⟩
      rw [b]; constructor <;> intro <;> omega

/-! ### The row of a record -/

theorem scanLines_seq_length_le (kf : Option (List Nat → Option (List Nat)))
    (ls : List (List Nat)) (st : BuildState) :
    st.seq.length ≤ (scanLines kf st ls).seq.length := by
  induction ls generalizing st with
  | nil => exact Nat.le_refl _
  | cons x xs ih =>
    rw [scanLines_cons]
    exact Nat.le_trans (loopBody_seq_length_le kf st x) (ih _)

/-- An open record is committed by what follows its body: the next header
line, or the statements after the loop. Either way the row lands at the
next free index and its byte length is `position - start`. -/
theorem commit_open_record (kf : Option (List Nat → Option (List Nat))) (S3 : BuildState)
    (L2 : List (List Nat)) (hstart : 0 < S3.start) (hle : S3.start ≤ S3.position)
    (hL2 : L2 = [] ∨ ∃ h2 rest, L2 = h2 :: rest ∧ isHeader h2 = true)
    (hsz : S3.position + lineBytes L2 < 18446744073709551616) :
    (finishBuild (scanLines kf S3 L2)).seq[S3.seq.length]? =
      some (boundRow S3 (S3.position - S3.start)) := by
  rcases hL2 with hL2 | ⟨h2, rest, hL2, hh2⟩
  · subst hL2
    rw [scanLines_nil, finishBuild_seq_last, sub64_of_le hle (by omega)]
  · subst hL2
    rw [lineBytes_cons] at hsz
    have hq := loopBody_header_seq kf S3 h2 hh2
    rw [if_pos hstart] at hq
    have e0 : u64 (S3.position + (h2.length + 1)) = S3.position + (h2.length + 1) :=
      u64_of_lt (by omega)
    have e1 : sub64 (S3.position + (h2.length + 1)) S3.start
        = S3.position + (h2.length + 1) - S3.start := sub64_of_le (by omega) (by omega)
    have e2 : sub64 (S3.position + (h2.length + 1) - S3.start) h2.length
        = S3.position + (h2.length + 1) - S3.start - h2.length := sub64_of_le (by omega) (by omega)
    have e3 : sub64 (S3.position + (h2.length + 1) - S3.start - h2.length) 1
        = S3.position + (h2.length + 1) - S3.start - h2.length - 1 :=
      sub64_of_le (by omega) (by omega)
    have e4 : S3.position + (h2.length + 1) - S3.start - h2.length - 1
        = S3.position - S3.start := by omega
    rw [e0, e1, e2, e3, e4] at hq
    have hk : S3.seq.length < (loopBody kf S3 h2).seq.length := by
      rw [hq]; simp
    rw [scanLines_cons, finishBuild_seq_getElem? _ _
        (Nat.lt_of_lt_of_le hk (scanLines_seq_length_le kf rest _)),
      scanLines_seq_getElem? kf rest _ _ hk, hq]
    simp

/-- Line-level description of the row of a record: when the lines read are
`L1`, then a header `h`, then body lines `B`, then either nothing or lines
starting with the next header, the row with index `headerLines L1` of the
final table is the row bound in the state reached after `B`, with byte
length `lineBytes B`. -/
theorem record_row_lines (kf : Option (List Nat → Option (List Nat)))
    (L1 : List (List Nat)) (h : List Nat) (B L2 : List (List Nat))
    (hh : isHeader h = true) (hB : ∀ l ∈ B, isHeader l = false)
    (hL2 : L2 = [] ∨ ∃ h2 rest, L2 = h2 :: rest ∧ isHeader h2 = true)
    (hsz : lineBytes (L1 ++ h :: (B ++ L2)) < 18446744073709551616) :
    (scanLines kf (loopBody kf (scanLines kf buildInit L1) h) B).seq.length = headerLines L1 ∧
    (scanLines kf (loopBody kf (scanLines kf buildInit L1) h) B).start
      = lineBytes L1 + (h.length + 1) ∧
    (finishBuild (scanLines kf buildInit (L1 ++ h :: (B ++ L2)))).seq[headerLines L1]? =
      some (boundRow (scanLines kf (loopBody kf (scanLines kf buildInit L1) h) B) (lineBytes B)) := by
  rw [lineBytes_append, lineBytes_cons, lineBytes_append] at hsz
  obtain ⟨c1, c2, c3, c4⟩ := scanLines_count kf L1 buildInit 0 (by simp [buildInit])
    (by simp [buildInit]) (by simp [buildInit])
    (by rw [show buildInit.position = 0 from rfl]; omega)
  rw [show buildInit.position = 0 from rfl, Nat.zero_add] at c4
  simp only [Nat.zero_add] at c1 c2
  obtain ⟨f1, f2, -, -, -, -⟩ := loopBody_header_fields kf (scanLines kf buildInit L1) h hh
  have hu : u64 ((scanLines kf buildInit L1).position + (h.length + 1))
      = lineBytes L1 + (h.length + 1) := by
    rw [c4]; exact u64_of_lt (by omega)
  rw [hu] at f1 f2
  have hlen2 : (loopBody kf (scanLines kf buildInit L1) h).seq.length = headerLines L1 := by
    rw [loopBody_header_seq kf _ h hh]
    by_cases hs : (scanLines kf buildInit L1).start > 0
    · have : 0 < headerLines L1 := c2.mp hs
      simp [hs, c1]; omega
    · have : ¬ 0 < headerLines L1 := fun e => hs (c2.mpr e)
      simp [hs, c1]; omega
  obtain ⟨b1, b2, -, -, -, -, b7⟩ := scanLines_body kf B (loopBody kf (scanLines kf buildInit L1) h)
    hB (by rw [f2]; omega)
  rw [f2] at b7
  rw [f1] at b2
  have hlen3 : (scanLines kf (loopBody kf (scanLines kf buildInit L1) h) B).seq.length
      = headerLines L1 := by rw [b1, hlen2]
  refine ⟨hlen3, b2, ?_⟩
  have hc := commit_open_record kf (scanLines kf (loopBody kf (scanLines kf buildInit L1) h) B) L2
    (by rw [b2]; omega) (by rw [b2, b7]; omega) hL2 (by rw [b7]; omega)
  have hd : (scanLines kf (loopBody kf (scanLines kf buildInit L1) h) B).position
      - (scanLines kf (loopBody kf (scanLines kf buildInit L1) h) B).start = lineBytes B := by
    rw [b2, b7]; omega
  rw [hlen3, hd] at hc
  rw [scanLines_append, scanLines_cons, scanLines_append]
  exact hc

theorem ksLines_head_isHeader (post : List Nat) (h : post.head? = some 62) :
    ∃ h2 rest, ksLines post = h2 :: rest ∧ isHeader h2 = true := by
  cases post with
  | nil => simp at h
  | cons c p =>
    have hc : c = 62 := by simpa using h
    subst hc
    rw [ksLines, if_neg (by decide)]
    cases ksLines p with
    | nil => exact ⟨[62], [], rfl, by simp [isHeader]⟩
    | cons l ls => exact ⟨62 :: l, ls, rfl, by simp [isHeader]⟩

/-- The lines of a stream cut at a header line: `pre` is made of whole lines,
`hdr` is the header text after `>`, `body` are the bytes up to the next
header or the end of the stream. -/
theorem ksLines_record (pre hdr body post : List Nat)
    (hpre : pre = [] ∨ pre.getLast? = some 10) (hhdr : 10 ∉ hdr)
    (hpost : post = [] ∨ (body = [] ∨ body.getLast? = some 10)) :
    ksLines (pre ++ (62 :: hdr) ++ (10 :: body) ++ post) =
      ksLines pre ++ (62 :: hdr) :: (ksLines body ++ ksLines post) := by
  have h1 : pre ++ (62 :: hdr) ++ (10 :: body) ++ post
      = pre ++ ((62 :: hdr) ++ 10 :: (body ++ post)) := by simp
  rw [h1, ksLines_append pre _ hpre, ksLines_line (62 :: hdr) (body ++ post)
    (by simp; exact hhdr)]
  rcases hpost with hp | hb
  · subst hp; simp [ksLines]
  · rw [ksLines_append body post hb]

theorem cstr_idem (s : List Nat) : cstr (cstr s) = cstr s := by
  induction s with
  | nil => rfl
  | cons c s ih =>
    by_cases hc : c = 0
    · simp [cstr, hc]
    · have e : cstr (c :: s) = c :: cstr s := by simp [cstr, hc]
      have e2 : cstr (c :: cstr s) = c :: cstr (cstr s) := by simp [cstr, hc]
      rw [e, e2, ih]

theorem mem_lineBytes_le (ls : List (List Nat)) (l : List Nat) (h : l ∈ ls) :
    l.length + 1 ≤ lineBytes ls := by
  induction ls with
  | nil => simp at h
  | cons x xs ih =>
    rw [lineBytes_cons]
    rcases List.mem_cons.mp h with h | h
    · subst h; omega
    · have := ih h; omega

theorem length_le_lineBytes (ls : List (List Nat)) : ls.length ≤ lineBytes ls := by
  induction ls with
  | nil => simp
  | cons x xs ih => rw [lineBytes_cons, List.length_cons]; omega

theorem header_getLast (hdr : List Nat) :
    ((62 :: hdr).getLast? = some 13) ↔ (hdr.getLast? = some 13) := by
  cases hdr with
  | nil => simp
  | cons c t => simp [List.getLast?_cons_cons]

theorem header_description (hdr : List Nat) :
    cstr (((62 :: hdr).drop 1).take ((62 :: hdr).length
      - (if (62 :: hdr).getLast? = some 13 then 2 else 1))) = cstr (stripCR hdr) := by
  unfold stripCR
  by_cases h : hdr.getLast? = some 13
  · rw [if_pos ((header_getLast hdr).mpr h), if_pos h, List.dropLast_eq_take]
    simp
  · rw [if_neg (fun e => h ((header_getLast hdr).mp e)), if_neg h]
    simp

/-- The row of a record, field by field. The stream is cut as `pre`, whole
lines; the header line `>hdr` and its newline; `body`, the bytes up to the
next header or to the end of the stream; `post`, empty or starting with the
next header. The row sits at index `headerCount pre` of the table. -/
theorem record_fields (kf : Option (List Nat → Option (List Nat)))
    (pre hdr body post : List Nat)
    (hpre : pre = [] ∨ pre.getLast? = some 10) (hhdr : 10 ∉ hdr)
    (hbody : ∀ l ∈ ksLines body, isHeader l = false)
    (hpost : post = [] ∨ ((body = [] ∨ body.getLast? = some 10) ∧ post.head? = some 62))
    (hsz : (pre ++ (62 :: hdr) ++ (10 :: body) ++ post).length < 9223372036854775808) :
    ∃ r : Row, ∃ n : Nat,
      (buildIndex kf (pre ++ (62 :: hdr) ++ (10 :: body) ++ post)).seq[headerCount pre]? = some r ∧
      r.id = (headerCount pre : Int) + 1 ∧
      r.boff = ((pre.length + hdr.length + 2 : Nat) : Int) ∧
      r.blen = toInt32 (lineBytes (ksLines body)) ∧
      r.elen = (if hdr.getLast? = some 13 then 2 else 1) ∧
      r.descr = some (cstr (stripCR hdr)) ∧
      r.chrom = (keyOf kf (cstr (stripCR hdr))).map cstr ∧
      r.slen = toInt32 n ∧
      (n : Int) % 4294967296 =
        ((ksLines body).map (fun l => (l.length : Int) + 1
          - (if hdr.getLast? = some 13 then 2 else 1))).sum % 4294967296 ∧
      (body.length < 2147483647 →
        r.llen = (firstWidth (ksLines body) : Int) ∧
        r.norm = (if deviating (ksLines body) > 1 then 0 else 1)) := by
  have hlines := ksLines_record pre hdr body post hpre hhdr
    (by rcases hpost with h | h; exact Or.inl h; exact Or.inr h.1)
  have hhead : isHeader (62 :: hdr) = true := by simp [isHeader]
  have hL2 : ksLines post = [] ∨ ∃ h2 rest, ksLines post = h2 :: rest ∧ isHeader h2 = true := by
    rcases hpost with h | h
    · left; subst h; rfl
    · right; exact ksLines_head_isHeader post h.2
  have hbytes := lineBytes_ksLines_le (pre ++ (62 :: hdr) ++ (10 :: body) ++ post)
  rw [hlines] at hbytes
  have htotal : (pre ++ (62 :: hdr) ++ (10 :: body) ++ post).length
      = pre.length + hdr.length + body.length + post.length + 2 := by
    simp only [List.length_append, List.length_cons]; omega
  rw [htotal] at hbytes hsz
  obtain ⟨r1, r2, r3⟩ := record_row_lines kf (ksLines pre) (62 :: hdr) (ksLines body) (ksLines post)
    hhead hbody hL2 (by omega)
  have hpl := lineBytes_ksLines_terminated pre hpre
  rw [lineBytes_append, lineBytes_cons, lineBytes_append, hpl] at hbytes
  obtain ⟨f1, f2, f3, f4, f5, f6⟩ := loopBody_header_fields kf (scanLines kf buildInit (ksLines pre))
    (62 :: hdr) hhead
  have fd := loopBody_header_description kf (scanLines kf buildInit (ksLines pre)) (62 :: hdr) hhead
  have fc := loopBody_header_chrom kf (scanLines kf buildInit (ksLines pre)) (62 :: hdr) hhead
  rw [header_description] at fd fc
  have hpos : (loopBody kf (scanLines kf buildInit (ksLines pre)) (62 :: hdr)).position
      + lineBytes (ksLines body) < 18446744073709551616 := by
    have := u64_of_lt (n := (scanLines kf buildInit (ksLines pre)).position
      + ((62 :: hdr).length + 1))
    obtain ⟨-, -, -, c4⟩ := scanLines_count kf (ksLines pre) buildInit 0 (by simp [buildInit])
      (by simp [buildInit]) (by simp [buildInit])
      (by rw [show buildInit.position = 0 from rfl]; omega)
    rw [show buildInit.position = 0 from rfl, Nat.zero_add] at c4
    rw [f2, c4, hpl, u64_of_lt (by simp only [List.length_cons] at hbytes ⊢; omega)]
    simp only [List.length_cons] at hbytes ⊢
    omega
  obtain ⟨b1, b2, b3, b4, b5, b6, b7⟩ := scanLines_body kf (ksLines body)
    (loopBody kf (scanLines kf buildInit (ksLines pre)) (62 :: hdr)) hbody hpos
  have hseq := scanLines_body_seq_len kf (ksLines body)
    (loopBody kf (scanLines kf buildInit (ksLines pre)) (62 :: hdr)) hbody
  rw [f3, f6] at hseq
  refine ⟨boundRow (scanLines kf (loopBody kf (scanLines kf buildInit (ksLines pre)) (62 :: hdr))
      (ksLines body)) (lineBytes (ksLines body)),
    (scanLines kf (loopBody kf (scanLines kf buildInit (ksLines pre)) (62 :: hdr))
      (ksLines body)).seq_len, ?_, ?_, ?_, ?_, ?_, ?_, ?_, ?_, ?_, ?_⟩
  · unfold buildIndex headerCount
    rw [hlines]
    exact r3
  · simp only [boundRow, r1, headerCount, headerLines]
  · simp only [boundRow, r2, hpl]
    rw [toInt64_of_lt (by simp only [List.length_cons]; omega)]
    simp only [List.length_cons]
    congr 1
  · simp only [boundRow]
  · simp only [boundRow, b5, f6]
    by_cases h : hdr.getLast? = some 13
    · rw [if_pos ((header_getLast hdr).mpr h), if_pos h]; rfl
    · rw [if_neg (fun e => h ((header_getLast hdr).mp e)), if_neg h]; rfl
  · simp only [boundRow, b4, fd, Option.map_some', cstr_idem]
  · simp only [boundRow, b3, fc, keyOf]
  · simp only [boundRow]
  · rw [hseq]
    by_cases h : hdr.getLast? = some 13
    · rw [if_pos ((header_getLast hdr).mpr h), if_pos h]
      simp
    · rw [if_neg (fun e => h ((header_getLast hdr).mp e)), if_neg h]
      simp
  · intro hb
    have hlb := lineBytes_ksLines_le body
    obtain ⟨w1, w2⟩ := scanLines_body_fresh kf (ksLines body)
      (loopBody kf (scanLines kf buildInit (ksLines pre)) (62 :: hdr)) hbody f4 f5
      (fun l hl => by have := mem_lineBytes_le _ l hl; omega)
      (by have := length_le_lineBytes (ksLines body); omega)
    simp only [boundRow, w1, w2]
    constructor
    · apply toInt32_of_lt
      cases hk : ksLines body with
      | nil => simp [firstWidth]
      | cons l0 rest =>
        have := mem_lineBytes_le (ksLines body) l0 (by rw [hk]; simp)
        simp only [firstWidth]
        omega
    · split <;> rfl

/-- The table built has one row per header line, and one row when the stream
has no header line at all. -/
theorem buildIndex_seq_length (kf : Option (List Nat → Option (List Nat))) (s : List Nat)
    (hsz : s.length < 9223372036854775808) :
    (buildIndex kf s).seq.length = headerCount s - 1 + 1 := by
  have hb := lineBytes_ksLines_le s
  obtain ⟨c1, -, -, -⟩ := scanLines_count kf (ksLines s) buildInit 0 (by simp [buildInit])
    (by simp [buildInit]) (by simp [buildInit])
    (by rw [show buildInit.position = 0 from rfl]; omega)
  simp only [Nat.zero_add] at c1
  simp only [buildIndex, finishBuild, commitRow, List.length_append, List.length_singleton, c1,
    headerCount, headerLines]

/-! ### C1 -/

/-- C1: in a stream whose lines all end with a newline, the row committed for
a header line stores as offset the position right after the newline of the
header line and as byte length the number of bytes of the body lines, their
terminators included, so that the bytes `[boff, boff + blen)` of the stream
are the body lines (bodies below `2^31` bytes, streams below `2^63` bytes,
the range of a file offset). The stream is cut as `pre`, the whole lines
before the header; `>hdr` and its newline; `body`, the body lines;
`post`, empty or starting with the next header. -/
theorem C1_offset_and_byte_length (self : Index) (pre hdr body post : List Nat)
    (hfile : self.file = pre ++ (62 :: hdr) ++ (10 :: body) ++ post)
    (hpre : pre = [] ∨ pre.getLast? = some 10) (hhdr : 10 ∉ hdr)
    (hbody : body = [] ∨ body.getLast? = some 10)
    (hlines : ∀ l ∈ ksLines body, isHeader l = false)
    (hpost : post = [] ∨ post.head? = some 62)
    (hblen : body.length < 2147483648)
    (hsz : self.file.length < 9223372036854775808) :
    ∃ r : Row, (pyfastx_create_index self).1.index_db[headerCount pre]? = some r ∧
      r.boff = ((pre ++ (62 :: hdr) ++ [10]).length : Int) ∧
      r.blen = (body.length : Int) ∧
      (self.file.drop r.boff.toNat).take r.blen.toNat = body := by
  rw [hfile] at hsz
  obtain ⟨r, n, h1, -, h3, h4, -⟩ := record_fields self.key_func pre hdr body post hpre hhdr hlines
    (by rcases hpost with h | h; exact Or.inl h; exact Or.inr ⟨hbody, h⟩) hsz
  rw [lineBytes_ksLines_terminated body hbody, toInt32_of_lt hblen] at h4
  have e : (pre ++ (62 :: hdr) ++ [10]).length = pre.length + hdr.length + 2 := by
    simp only [List.length_append, List.length_cons, List.length_nil]; omega
  refine ⟨r, ?_, ?_, h4, ?_⟩
  · simp only [pyfastx_create_index, hfile]
    exact h1
  · rw [h3, e]
  · rw [h3, h4, hfile, Int.toNat_ofNat, Int.toNat_ofNat, ← e]
    have e2 : pre ++ (62 :: hdr) ++ (10 :: body) ++ post
        = (pre ++ (62 :: hdr) ++ [10]) ++ (body ++ post) := by simp
    rw [e2, List.drop_left, List.take_left]

/-- C1 at the second record of `>chr1 desc\nACGT\nAC\n>chr2\nTTTT\n`. -/
theorem C1_offset_and_byte_length_witness :
    ∃ r : Row, (pyfastx_create_index
        (sampleIndex (bytes ">chr1 desc\nACGT\nAC\n>chr2\nTTTT\n") false none)).1.index_db[
          headerCount (bytes ">chr1 desc\nACGT\nAC\n")]? = some r ∧
      r.boff = (((bytes ">chr1 desc\nACGT\nAC\n") ++ (62 :: bytes "chr2") ++ [10]).length : Int) ∧
      r.blen = ((bytes "TTTT\n").length : Int) ∧
      ((sampleIndex (bytes ">chr1 desc\nACGT\nAC\n>chr2\nTTTT\n") false none).file.drop
        r.boff.toNat).take r.blen.toNat = bytes "TTTT\n" :=
  C1_offset_and_byte_length (sampleIndex (bytes ">chr1 desc\nACGT\nAC\n>chr2\nTTTT\n") false none)
    (bytes ">chr1 desc\nACGT\nAC\n") (bytes "chr2") (bytes "TTTT\n") []
    (by decide) (by decide) (by decide) (by decide) (by decide) (by decide) (by decide) (by decide)

/-! ### C2 -/

theorem cstr_of_not_mem (s : List Nat) (h : 0 ∉ s) : cstr s = s := by
  induction s with
  | nil => rfl
  | cons c s ih =>
    have hc : c ≠ 0 := fun e => h (by simp [e])
    have hs : 0 ∉ s := fun e => h (by simp [e])
    simp only [cstr, List.takeWhile_cons, ne_eq, hc, not_false_eq_true, decide_True, if_true]
    exact congrArg (List.cons c) (ih hs)

theorem columnU32_ofNat (n : Nat) (h : n < 4294967296) : columnU32 (n : Int) = n := by
  unfold columnU32
  omega

/-- The read of a span that lies inside the file delivers the span. -/
theorem fread_item_inside (file : List Nat) (off n : Nat) (eof : Bool) (mem : List Nat)
    (hn : 0 < n) (hin : off + n ≤ file.length) :
    fread_item file off eof n mem =
      (1, (file.drop off).take n ++ mem.drop n, off + n, eof) := by
  have hl : ((file.drop off).take n).length = n := by
    rw [List.length_take, List.length_drop]; omega
  unfold fread_item
  rw [if_neg (by omega)]
  simp only [hl, if_true]

/-- C2 (as amended): for an uncompressed source and a stored row whose byte
length is positive (and in the range of the `int` it was stored from) and
whose span `[boff, boff + blen)` lies inside the file and holds no NUL
byte, a fetch that misses the cache returns the bytes of the span without
the whitespace bytes, folded to uppercase exactly when the uppercase option
is set. -/
theorem C2_full_seq_on_miss (self : Index) (chrom : Nat) (uninit : List Nat) (row : Row)
    (hrow : selectById self.index_db chrom = some row)
    (hgz : self.gzip_format = false)
    (hoff : 0 ≤ row.boff) (hlen : 0 < row.blen) (hint : row.blen < 2147483648)
    (hspan : row.boff + row.blen ≤ (self.file.length : Int))
    (hmiss : ¬ (chrom = self.cache_chrom ∧ 1 = self.cache_start
      ∧ columnU32 row.slen = self.cache_end))
    (hnul : 0 ∉ (self.file.drop row.boff.toNat).take row.blen.toNat) :
    (pyfastx_index_get_full_seq self chrom uninit).1 =
      Except.ok (some (if self.uppercase then
          (((self.file.drop row.boff.toNat).take row.blen.toNat).filter
            (fun c => !isspace c)).map toupper
        else ((self.file.drop row.boff.toNat).take row.blen.toNat).filter
          (fun c => !isspace c))) := by
  obtain ⟨o, ho⟩ := Int.eq_ofNat_of_zero_le hoff
  obtain ⟨n, hn⟩ := Int.eq_ofNat_of_zero_le (Int.le_of_lt hlen)
  rw [ho, hn] at hspan
  rw [hn] at hlen hint
  rw [ho, hn, Int.toNat_ofNat, Int.toNat_ofNat] at hnul
  have hn0 : 0 < n := by omega
  have hin : o + n ≤ self.file.length := by omega
  have hcol : columnU32 row.blen = n := by rw [hn]; exact columnU32_ofNat n (by omega)
  have hsk : fseek_set self.fpos self.feof row.boff = (o, false) := by
    unfold fseek_set
    rw [if_neg (by omega), ho, Int.toNat_ofNat]
  have hl : ((self.file.drop o).take n).length = n := by
    rw [List.length_take, List.length_drop]; omega
  have htake : ((self.file.drop o).take n ++ uninit.drop n).take n = (self.file.drop o).take n := by
    rw [List.take_append_of_le_length (by omega), List.take_take, Nat.min_self]
  unfold pyfastx_index_get_full_seq
  simp only [hrow, if_neg hmiss, hgz, hcol, hsk, fread_item_inside self.file o n false uninit hn0 hin,
    storeFetched, htake, cstr_of_not_mem _ hnul, remove_space, remove_space_uppercase]
  rw [ho, hn, Int.toNat_ofNat, Int.toNat_ofNat]
  simp

/-- C2 (as amended) on record 1 of `>chr1 desc\nACgT\nAC\n>chr2\nTTTT\n` with the
uppercase option set: the fetch returns `ACGTAC`. -/
theorem C2_full_seq_on_miss_witness :
    (pyfastx_index_get_full_seq
        (pyfastx_create_index (sampleIndex (bytes ">chr1 desc\nACgT\nAC\n>chr2\nTTTT\n") true none)).1
        1 []).1 = Except.ok (some (bytes "ACGTAC")) :=
  C2_full_seq_on_miss
    (pyfastx_create_index (sampleIndex (bytes ">chr1 desc\nACgT\nAC\n>chr2\nTTTT\n") true none)).1
    1 []
    { id := 1, chrom := some (bytes "chr1"), boff := 11, blen := 8, slen := 6, llen := 5, elen := 1,
      norm := 1, descr := some (bytes "chr1 desc") }
    (by decide) (by decide) (by decide) (by decide) (by decide) (by decide) (by decide) (by decide)

/-- C2, counterexample to the claim as stated: the file `>a\nA\x00C\n` has record
1 with span `A\x00C\n` (offset 3, length 4, inside the file); the fetch on a
cache miss returns `A`, the C string in the buffer, while the span without
its whitespace is `A\x00C`. -/
theorem C2_counterexample :
    (pyfastx_create_index (sampleIndex [62, 97, 10, 65, 0, 67, 10] false none)).1.index_db.map
        (fun r => (r.id, r.boff, r.blen)) = [(1, 3, 4)] ∧
    (pyfastx_index_get_full_seq
        (pyfastx_create_index (sampleIndex [62, 97, 10, 65, 0, 67, 10] false none)).1 1 []).1
      = Except.ok (some [65]) ∧
    ((([62, 97, 10, 65, 0, 67, 10] : List Nat).drop 3).take 4).filter (fun c => !isspace c)
      = [65, 0, 67] := by
  refine ⟨by decide, by rfl, by decide⟩

/-! ### C3 -/

theorem headerLines_eq_zero (B : List (List Nat)) (h : ∀ l ∈ B, isHeader l = false) :
    headerLines B = 0 := by
  unfold headerLines
  rw [List.length_eq_zero, List.filter_eq_nil_iff]
  intro l hl
  simp [h l hl]

/-- A stream made of one header line and body lines yields exactly one row;
its sequence length is, modulo `2^32`, the sum over the body lines of
`line.l + 1 - line_end`. -/
theorem single_record (kf : Option (List Nat → Option (List Nat))) (hdr body : List Nat)
    (hhdr : 10 ∉ hdr) (hbody : ∀ l ∈ ksLines body, isHeader l = false)
    (hsz : ((62 :: hdr) ++ (10 :: body)).length < 9223372036854775808) :
    ∃ r : Row, ∃ n : Nat, (buildIndex kf ((62 :: hdr) ++ (10 :: body))).seq = [r] ∧
      r.slen = toInt32 n ∧
      (n : Int) % 4294967296 =
        ((ksLines body).map (fun l => (l.length : Int) + 1
          - (if hdr.getLast? = some 13 then 2 else 1))).sum % 4294967296 := by
  have e : ([] : List Nat) ++ (62 :: hdr) ++ (10 :: body) ++ [] = (62 :: hdr) ++ (10 :: body) := by
    simp
  obtain ⟨r, n, h1, -, -, -, -, -, -, h8, h9, -⟩ := record_fields kf [] hdr body [] (Or.inl rfl) hhdr
    hbody (Or.inl rfl) (by rw [e]; exact hsz)
  rw [e] at h1
  have hc : headerCount ((62 :: hdr) ++ (10 :: body)) = 1 := by
    unfold headerCount
    rw [ksLines_line (62 :: hdr) body (by simp; exact hhdr)]
    have := headerLines_eq_zero _ hbody
    simp only [headerLines] at this
    simp [List.filter_cons, isHeader, this]
  have hl := buildIndex_seq_length kf ((62 :: hdr) ++ (10 :: body)) hsz
  rw [hc] at hl
  have h0 : headerCount ([] : List Nat) = 0 := rfl
  rw [h0] at h1
  refine ⟨r, n, ?_, h8, h9⟩
  cases hq : (buildIndex kf ((62 :: hdr) ++ (10 :: body))).seq with
  | nil => rw [hq] at hl; simp at hl
  | cons a t =>
    rw [hq] at hl h1
    cases t with
    | nil => simp at h1; rw [h1]
    | cons b t => simp at hl

theorem ksLines_bodyText_lf (ls : List (List Nat)) (tl : List Nat) (h : ∀ l ∈ ls, 10 ∉ l) :
    ksLines (bodyText false ls ++ tl) = ls ++ ksLines tl := by
  induction ls with
  | nil => simp [bodyText]
  | cons l ls ih =>
    have e : bodyText false (l :: ls) ++ tl = l ++ 10 :: (bodyText false ls ++ tl) := by
      simp [bodyText, terminator]
    rw [e, ksLines_line l _ (h l (by simp)), ih (fun x hx => h x (by simp [hx]))]
    rfl

theorem ksLines_bodyText_crlf (ls : List (List Nat)) (h : ∀ l ∈ ls, 10 ∉ l) :
    ksLines (bodyText true ls) = ls.map (fun l => l ++ [13]) := by
  induction ls with
  | nil => simp [bodyText, ksLines]
  | cons l ls ih =>
    have e : bodyText true (l :: ls) = (l ++ [13]) ++ 10 :: bodyText true ls := by
      simp [bodyText, terminator]
    have hl : 10 ∉ l ++ [13] := by
      have := h l (by simp)
      simp [this]
    rw [e, ksLines_line (l ++ [13]) _ hl, ih (fun x hx => h x (by simp [hx]))]
    rfl

theorem nonTerminators_append (a b : List Nat) :
    nonTerminators (a ++ b) = nonTerminators a + nonTerminators b := by
  simp [nonTerminators, List.filter_append]

theorem nonTerminators_content (l : List Nat) (h1 : 10 ∉ l) (h2 : 13 ∉ l) :
    nonTerminators l = l.length := by
  unfold nonTerminators
  rw [List.filter_eq_self.mpr]
  intro c hc
  have a : c ≠ 10 := fun e => h1 (e ▸ hc)
  have b : c ≠ 13 := fun e => h2 (e ▸ hc)
  simp [a, b]

theorem nonTerminators_bodyText (crlf : Bool) (ls : List (List Nat))
    (h : ∀ l ∈ ls, 10 ∉ l ∧ 13 ∉ l) :
    (nonTerminators (bodyText crlf ls) : Int) = (ls.map (fun l => (l.length : Int))).sum := by
  induction ls with
  | nil => simp [bodyText, nonTerminators]
  | cons l ls ih =>
    have hl := h l (by simp)
    have ht : nonTerminators (terminator crlf) = 0 := by
      cases crlf <;> simp [terminator, nonTerminators]
    simp only [bodyText, nonTerminators_append, nonTerminators_content l hl.1 hl.2, ht,
      List.map_cons, List.sum_cons]
    have := ih (fun x hx => h x (by simp [hx]))
    push_cast
    omega

theorem sum_length_le_bodyText (crlf : Bool) (ls : List (List Nat)) :
    (ls.map (fun l => (l.length : Int))).sum ≤ ((bodyText crlf ls).length : Int) := by
  induction ls with
  | nil => simp [bodyText]
  | cons l ls ih =>
    simp only [bodyText, List.map_cons, List.sum_cons, List.length_append]
    push_cast
    have : (0 : Int) ≤ ((terminator crlf).length : Int) := Int.ofNat_nonneg _
    omega

theorem sum_nonneg_lengths (ls : List (List Nat)) :
    0 ≤ (ls.map (fun l => (l.length : Int))).sum := by
  induction ls with
  | nil => simp
  | cons l ls ih =>
    simp only [List.map_cons, List.sum_cons]
    have : (0 : Int) ≤ (l.length : Int) := Int.ofNat_nonneg _
    omega

theorem ksLines_tail_line (tl : List Nat) (h : 10 ∉ tl) :
    ksLines tl = if tl = [] then [] else [tl] := by
  by_cases e : tl = []
  · subst e; rfl
  · rw [if_neg e, ksLines_last tl h e]

/-- C3 (as amended): for a single-record stream (a header line `>hdr`, whole
body lines with contents `ls`, and a last body line `tl` without terminator,
possibly empty) whose header and body lines all end with `\n` alone, or all
end with `\r\n` with a terminator on the last body line too, where `\r`
and `\n` occur only in the terminators, the one row committed has as
sequence length the number of body bytes that are not line-terminator
characters (streams below `2^31` bytes). -/
theorem C3_single_record_sequence_length (self : Index) (hdr : List Nat) (ls : List (List Nat))
    (tl : List Nat) (crlf : Bool)
    (hfile : self.file = (62 :: hdr) ++ terminator crlf ++ (bodyText crlf ls ++ tl))
    (hhdr : 10 ∉ hdr) (hhdr2 : crlf = false → hdr.getLast? ≠ some 13)
    (hls : ∀ l ∈ ls, 10 ∉ l ∧ 13 ∉ l ∧ l.head? ≠ some 62)
    (htl : 10 ∉ tl ∧ 13 ∉ tl ∧ tl.head? ≠ some 62)
    (hcr : crlf = true → tl = [])
    (hsz : self.file.length < 2147483648) :
    ∃ r : Row, (pyfastx_create_index self).1.index_db = [r] ∧
      r.slen = (nonTerminators (bodyText crlf ls ++ tl) : Int) := by
  have hcount : (nonTerminators (bodyText crlf ls ++ tl) : Int)
      = (ls.map (fun l => (l.length : Int))).sum + (tl.length : Int) := by
    rw [nonTerminators_append, nonTerminators_content tl htl.1 htl.2.1]
    push_cast
    rw [nonTerminators_bodyText crlf ls (fun l hl => ⟨(hls l hl).1, (hls l hl).2.1⟩)]
  have hle := sum_length_le_bodyText crlf ls
  have hnn := sum_nonneg_lengths ls
  rw [hfile] at hsz
  simp only [List.length_append, List.length_cons] at hsz
  cases crlf with
  | false =>
    have e : (62 :: hdr) ++ terminator false ++ (bodyText false ls ++ tl)
        = (62 :: hdr) ++ (10 :: (bodyText false ls ++ tl)) := by simp [terminator]
    have hk := ksLines_bodyText_lf ls tl (fun l hl => (hls l hl).1)
    rw [ksLines_tail_line tl htl.1] at hk
    have hbody : ∀ l ∈ ksLines (bodyText false ls ++ tl), isHeader l = false := by
      intro l hl
      rw [hk] at hl
      rcases List.mem_append.mp hl with h | h
      · simpa [isHeader] using (hls l h).2.2
      · by_cases et : tl = []
        · simp [et] at h
        · simp [et] at h
          subst h
          simpa [isHeader] using htl.2.2
    obtain ⟨r, n, h1, h2, h3⟩ := single_record self.key_func hdr (bodyText false ls ++ tl) hhdr hbody
      (by simp only [List.length_append, List.length_cons]; omega)
    rw [if_neg (hhdr2 rfl), hk] at h3
    have hsum : ((ls ++ if tl = [] then [] else [tl]).map
        (fun l => (l.length : Int) + 1 - 1)).sum
        = (ls.map (fun l => (l.length : Int))).sum + (tl.length : Int) := by
      by_cases et : tl = []
      · simp [et]
      · simp [et]
    rw [hsum] at h3
    refine ⟨r, ?_, ?_⟩
    · simp only [pyfastx_create_index, hfile, e]
      exact h1
    · rw [h2, hcount]
      apply toInt32_eq_of_emod _ _ h3
      · have : (0 : Int) ≤ (tl.length : Int) := Int.ofNat_nonneg _
        omega
      · have ht : (terminator false).length = 1 := rfl
        rw [ht] at hsz
        omega
  | true =>
    have et : tl = [] := hcr rfl
    subst et
    have e : (62 :: hdr) ++ terminator true ++ (bodyText true ls ++ [])
        = (62 :: (hdr ++ [13])) ++ (10 :: bodyText true ls) := by simp [terminator]
    have hk := ksLines_bodyText_crlf ls (fun l hl => (hls l hl).1)
    have hbody : ∀ l ∈ ksLines (bodyText true ls), isHeader l = false := by
      intro l hl
      rw [hk] at hl
      obtain ⟨x, hx, rfl⟩ := List.mem_map.mp hl
      have := (hls x hx).2.2
      cases x with
      | nil => simp [isHeader]
      | cons c t => simpa [isHeader] using this
    obtain ⟨r, n, h1, h2, h3⟩ := single_record self.key_func (hdr ++ [13]) (bodyText true ls)
      (by simp [hhdr]) hbody
      (by simp only [List.length_append, List.length_cons, List.length_nil] at hsz ⊢; omega)
    rw [if_pos (by simp), hk, List.map_map] at h3
    have hsum : (ls.map ((fun l : List Nat => (l.length : Int) + 1 - 2) ∘ fun l => l ++ [13])).sum
        = (ls.map (fun l => (l.length : Int))).sum := by
      congr 1
      apply List.map_congr_left
      intro l _
      simp only [Function.comp, List.length_append, List.length_singleton]
      push_cast
      omega
    rw [hsum] at h3
    refine ⟨r, ?_, ?_⟩
    · simp only [pyfastx_create_index, hfile, e]
      exact h1
    · rw [h2, hcount]
      simp only [List.length_nil, Nat.cast_zero, add_zero]
      apply toInt32_eq_of_emod _ _ h3
      · omega
      · have ht : (terminator true).length = 2 := rfl
        rw [ht] at hsz
        omega

/-- C3 (as amended) on `>s\r\nACGT\r\nAC\r\n`: sequence length 6. -/
theorem C3_single_record_sequence_length_witness :
    ∃ r : Row, (pyfastx_create_index
        (sampleIndex (bytes ">s\r\nACGT\r\nAC\r\n") false none)).1.index_db = [r] ∧
      r.slen = (nonTerminators (bodyText true [bytes "ACGT", bytes "AC"] ++ []) : Int) :=
  C3_single_record_sequence_length (sampleIndex (bytes ">s\r\nACGT\r\nAC\r\n") false none)
    (bytes "s") [bytes "ACGT", bytes "AC"] [] true
    (by decide) (by decide) (by decide) (by decide) (by decide) (by decide) (by decide)

/-- C3, counterexample to the claim as stated: in `>a\nAC\r\n` the header ends
with `\n` and the body line with `\r\n`; the body has 2 bytes that are not
line-terminator characters, and the row committed has sequence length 3. -/
theorem C3_counterexample :
    (pyfastx_create_index (sampleIndex (bytes ">a\nAC\r\n") false none)).1.index_db.map
        (fun r => r.slen) = [3] ∧
    nonTerminators (bytes "AC\r\n") = 2 := by
  decide

/-! ### C4 -/

/-- C5, the code at the failing input `>a\nACGT` (7 bytes, no newline after the
last line): the row committed has offset 3 and byte length 5, and `3 + 5`
exceeds the size of the stream. -/
theorem C5_span_exceeds_stream :
    (pyfastx_create_index (sampleIndex (bytes ">a\nACGT") false none)).1.index_db.map
        (fun r => (r.boff, r.blen)) = [(3, 5)] ∧
    (bytes ">a\nACGT").length = 7 ∧ ¬ ((3 : Int) + 5 ≤ 7) := by
  decide

/-! ### C6 -/

/-- C6, the code at the failing input, the empty stream: no error is left
pending, and one row is committed, with NULL key and description. -/
theorem C6_empty_stream_row :
    (pyfastx_create_index (sampleIndex [] false none)).2 = none ∧
    (pyfastx_create_index (sampleIndex [] false none)).1.index_db =
      [{ id := 1, chrom := none, boff := 0, blen := 0, slen := 0, llen := 0, elen := 1, norm := 1,
         descr := none }] := by
  decide

/-! ### C7 -/

theorem zero_not_mem_cstr (s : List Nat) : 0 ∉ cstr s := by
  intro h
  have := List.mem_takeWhile_imp h
  simp at this

theorem boundRow_key (kf : Option (List Nat → Option (List Nat))) (st : BuildState) (blen : Nat)
    (h1 : st.chrom = st.description.bind (keyOf kf))
    (h2 : ∀ d, st.description = some d → 0 ∉ d) :
    (boundRow st blen).chrom = ((boundRow st blen).descr.bind (keyOf kf)).map cstr ∧
    ∀ d, (boundRow st blen).descr = some d → 0 ∉ d := by
  simp only [boundRow]
  cases hd : st.description with
  | none => simp [h1, hd]
  | some d =>
    have := cstr_of_not_mem d (h2 d hd)
    simp only [h1, hd, Option.map_some', this, Option.some_bind, Option.some.injEq, true_and]
    intro d1 e
    subst e
    exact h2 d hd

/-- Every row keeps the key derived from its own description, and a stored
description holds no NUL byte. -/
theorem scanLines_key_inv (kf : Option (List Nat → Option (List Nat))) (lines : List (List Nat))
    (st : BuildState) (h1 : st.chrom = st.description.bind (keyOf kf))
    (h2 : ∀ d, st.description = some d → 0 ∉ d)
    (h3 : ∀ r ∈ st.seq, r.chrom = (r.descr.bind (keyOf kf)).map cstr ∧
      ∀ d, r.descr = some d → 0 ∉ d) :
    (scanLines kf st lines).chrom = (scanLines kf st lines).description.bind (keyOf kf) ∧
    (∀ d, (scanLines kf st lines).description = some d → 0 ∉ d) ∧
    (∀ r ∈ (scanLines kf st lines).seq, r.chrom = (r.descr.bind (keyOf kf)).map cstr ∧
      ∀ d, r.descr = some d → 0 ∉ d) := by
  induction lines generalizing st with
  | nil => exact ⟨h1, h2, h3⟩
  | cons l ls ih =>
    rw [scanLines_cons]
    cases hl : isHeader l with
    | false =>
      apply ih
      · rw [loopBody_body kf st l hl]; exact h1
      · rw [loopBody_body kf st l hl]; exact h2
      · rw [loopBody_body kf st l hl]; exact h3
    | true =>
      apply ih
      · rw [loopBody_header_chrom kf st l hl, loopBody_header_description kf st l hl]
        cases kf <;> rfl
      · rw [loopBody_header_description kf st l hl]
        intro d e
        simp only [Option.some.injEq] at e
        subst e
        exact zero_not_mem_cstr _
      · rw [loopBody_header_seq kf st l hl]
        intro r hr
        split at hr
        · rcases List.mem_append.mp hr with h | h
          · exact h3 r h
          · simp only [List.mem_singleton] at h
            subst h
            exact boundRow_key kf st _ h1 h2
        · exact h3 r hr

theorem buildIndex_rows_key (kf : Option (List Nat → Option (List Nat))) (s : List Nat) :
    ∀ r ∈ (buildIndex kf s).seq, r.chrom = (r.descr.bind (keyOf kf)).map cstr ∧
      ∀ d, r.descr = some d → 0 ∉ d := by
  obtain ⟨h1, h2, h3⟩ := scanLines_key_inv kf (ksLines s) buildInit (by simp [buildInit])
    (by simp [buildInit]) (by simp [buildInit])
  intro r hr
  simp only [buildIndex, finishBuild, commitRow] at hr
  rcases List.mem_append.mp hr with h | h
  · exact h3 r h
  · simp only [List.mem_singleton] at h
    subst h
    exact boundRow_key kf _ _ h1 h2

theorem strtok_space_of_head (d : List Nat) (h : d.head? ≠ some 32) :
    strtok_space d = d.takeWhile (fun c => c ≠ 32) := by
  cases d with
  | nil => rfl
  | cons c t =>
    have hc : c ≠ 32 := by simpa using h
    simp [strtok_space, hc]

theorem not_mem_takeWhile_of_not_mem (p : Nat → Bool) (d : List Nat) (h : 0 ∉ d) :
    0 ∉ d.takeWhile p := by
  induction d with
  | nil => simp
  | cons c t ih =>
    have hc : (0 : Nat) ≠ c := fun e => h (by simp [e])
    have ht : 0 ∉ t := fun e => h (by simp [e])
    rw [List.takeWhile_cons]
    split
    · intro e
      rcases List.mem_cons.mp e with e | e
      · exact hc e
      · exact ih ht e
    · simp

/-- C7 (as amended): with no key function supplied, a row committed with a
description that does not begin with a space has as key the part of the
description before its first space character, the whole description when it
holds no space; only the space character splits, a tab or another
whitespace character does not. -/
theorem C7_default_key (self : Index) (hkf : self.key_func = none) (r : Row)
    (hr : r ∈ (pyfastx_create_index self).1.index_db) (d : List Nat) (hd : r.descr = some d)
    (hsp : d.head? ≠ some 32) :
    r.chrom = some (d.takeWhile (fun c => c ≠ 32)) := by
  simp only [pyfastx_create_index, hkf] at hr
  obtain ⟨h1, h2⟩ := buildIndex_rows_key none self.file r hr
  rw [h1, hd]
  simp only [Option.some_bind, keyOf, Option.map_some', strtok_space_of_head d hsp]
  rw [cstr_of_not_mem _ (not_mem_takeWhile_of_not_mem _ d (h2 d hd))]

/-- C7 (as amended) on `>abc\tdesc x\n`: the key is `abc\tdesc`. -/
theorem C7_default_key_witness :
    ({ id := 1, chrom := some (bytes "abc\tdesc"), boff := 12, blen := 0, slen := 0, llen := 0,
       elen := 1, norm := 1, descr := some (bytes "abc\tdesc x") } : Row).chrom
      = some ((bytes "abc\tdesc x").takeWhile (fun c => c ≠ 32)) :=
  C7_default_key (sampleIndex (bytes ">abc\tdesc x\n") false none) rfl
    { id := 1, chrom := some (bytes "abc\tdesc"), boff := 12, blen := 0, slen := 0, llen := 0,
      elen := 1, norm := 1, descr := some (bytes "abc\tdesc x") }
    (by decide) (bytes "abc\tdesc x") rfl (by decide)

/-- C7, counterexample to the claim as stated: for the header line `>abc\tdesc` the
description is `abc\tdesc`, whose leading token up to the first whitespace
run is `abc`; the key committed is `abc\tdesc`. -/
theorem C7_counterexample :
    (pyfastx_create_index (sampleIndex (bytes ">abc\tdesc\n") false none)).1.index_db.map
        (fun r => (r.descr, r.chrom))
      = [(some (bytes "abc\tdesc"), some (bytes "abc\tdesc"))] ∧
    leadingToken (bytes "abc\tdesc") = bytes "abc" := by
  decide

/-! ### C8 -/

/-- Offsets of committed rows are positions of the stream, hence not negative. -/
theorem scanLines_boff_nonneg (kf : Option (List Nat → Option (List Nat)))
    (lines : List (List Nat)) (st : BuildState) (h1 : st.start ≤ st.position)
    (h2 : ∀ r ∈ st.seq, 0 ≤ r.boff)
    (hsz : st.position + lineBytes lines < 9223372036854775808) :
    (scanLines kf st lines).start ≤ (scanLines kf st lines).position ∧
    (scanLines kf st lines).position = st.position + lineBytes lines ∧
    ∀ r ∈ (scanLines kf st lines).seq, 0 ≤ r.boff := by
  induction lines generalizing st with
  | nil => exact ⟨h1, by simp [scanLines_nil, lineBytes], h2⟩
  | cons l ls ih =>
    rw [lineBytes_cons] at hsz
    rw [scanLines_cons, lineBytes_cons]
    have hu : u64 (st.position + (l.length + 1)) = st.position + (l.length + 1) :=
      u64_of_lt (by omega)
    cases hl : isHeader l with
    | false =>
      have hb := loopBody_body kf st l hl
      have hp : (loopBody kf st l).position = st.position + (l.length + 1) := by
        rw [hb]; exact hu
      obtain ⟨a, b, c⟩ := ih (loopBody kf st l) (by rw [hp, hb]; simp only; omega)
        (by rw [hb]; exact h2) (by rw [hp]; omega)
      exact ⟨a, by rw [b, hp]; omega, c⟩
    | true =>
      obtain ⟨f1, f2, -, -, -, -⟩ := loopBody_header_fields kf st l hl
      rw [hu] at f1 f2
      have hq := loopBody_header_seq kf st l hl
      obtain ⟨a, b, c⟩ := ih (loopBody kf st l) (by rw [f1, f2])
        (by
          rw [hq]
          intro r hr
          split at hr
          · rcases List.mem_append.mp hr with h | h
            · exact h2 r h
            · simp only [List.mem_singleton] at h
              subst h
              simp only [boundRow]
              exact toInt64_nonneg_of_lt (by omega)
          · exact h2 r hr)
        (by rw [f2]; omega)
      exact ⟨a, by rw [b, f2]; omega, c⟩

/-- Every store written by `pyfastx_create_index` over a stream below
`2^63 - 1` bytes has non-negative offsets. -/
theorem create_index_boff_nonneg (self : Index) (hsz : self.file.length < 9223372036854775807) :
    ∀ r ∈ (pyfastx_create_index self).1.index_db, 0 ≤ r.boff := by
  have hb := lineBytes_ksLines_le self.file
  obtain ⟨a, b, c⟩ := scanLines_boff_nonneg self.key_func (ksLines self.file) buildInit
    (by simp [buildInit]) (by simp [buildInit])
    (by rw [show buildInit.position = 0 from rfl]; omega)
  rw [show buildInit.position = 0 from rfl, Nat.zero_add] at b
  intro r hr
  simp only [pyfastx_create_index, buildIndex, finishBuild, commitRow] at hr
  rcases List.mem_append.mp hr with h | h
  · exact c r h
  · simp only [List.mem_singleton] at h
    subst h
    simp only [boundRow]
    exact toInt64_nonneg_of_lt (by omega)

/-! ### C9 -/

theorem get_full_seq_no_row (s : Index) (c : Nat) (u : List Nat)
    (hrow : selectById s.index_db c = none) :
    pyfastx_index_get_full_seq s c u
      = (Except.error (Failure.raised (PyExc.KeyError (bytes "Can not found sequence"))), s) := by
  unfold pyfastx_index_get_full_seq
  simp only [hrow]

/-- The hit path: the cached pointer is returned and nothing else happens. -/
theorem get_full_seq_hit (s : Index) (c : Nat) (u : List Nat) (row : Row)
    (hrow : selectById s.index_db c = some row)
    (hhit : c = s.cache_chrom ∧ 1 = s.cache_start ∧ columnU32 row.slen = s.cache_end) :
    pyfastx_index_get_full_seq s c u = (Except.ok s.cache_seq, s) := by
  unfold pyfastx_index_get_full_seq
  simp only [hrow, if_pos hhit]

/-- The miss path when the read raises no error: one read is issued and the
cache entry becomes `(chrom, 1, seq_len)` with the buffer returned. -/
theorem get_full_seq_miss_ok (s : Index) (c : Nat) (u : List Nat) (row : Row)
    (hrow : selectById s.index_db c = some row)
    (hmiss : ¬ (c = s.cache_chrom ∧ 1 = s.cache_start ∧ columnU32 row.slen = s.cache_end))
    (hoff : 0 ≤ row.boff) (hok : s.gzip_format = true ∨ columnU32 row.blen ≠ 0) :
    ∃ p, (pyfastx_index_get_full_seq s c u).1 = Except.ok (some p) ∧
      (pyfastx_index_get_full_seq s c u).2.cache_seq = some p ∧
      (pyfastx_index_get_full_seq s c u).2.cache_chrom = c ∧
      (pyfastx_index_get_full_seq s c u).2.cache_start = 1 ∧
      (pyfastx_index_get_full_seq s c u).2.cache_end = columnU32 row.slen ∧
      (pyfastx_index_get_full_seq s c u).2.reads = s.reads + 1 ∧
      (pyfastx_index_get_full_seq s c u).2.index_db = s.index_db ∧
      (pyfastx_index_get_full_seq s c u).2.gzip_format = s.gzip_format := by
  cases hgz : s.gzip_format with
  | true =>
    unfold pyfastx_index_get_full_seq
    simp only [hrow, if_neg hmiss, hgz, if_true, storeFetched]
    refine ⟨_, rfl, ?_⟩
    simp
  | false =>
    have hn : columnU32 row.blen ≠ 0 := by
      rcases hok with h | h
      · rw [hgz] at h; exact absurd h (by decide)
      · exact h
    obtain ⟨o, ho⟩ := Int.eq_ofNat_of_zero_le hoff
    have hsk : fseek_set s.fpos s.feof row.boff = (o, false) := by
      unfold fseek_set
      rw [if_neg (by omega), ho, Int.toNat_ofNat]
    have hrd : ¬ ((fread_item s.file o false (columnU32 row.blen) u).1 ≠ 1 ∧
        (fread_item s.file o false (columnU32 row.blen) u).2.2.2 = false) := by
      unfold fread_item
      rw [if_neg hn]
      simp only
      split <;> simp
    unfold pyfastx_index_get_full_seq
    simp only [hrow, if_neg hmiss, hgz, hsk, if_neg hrd, storeFetched]
    exact ⟨_, rfl, rfl, rfl, rfl, rfl, rfl, rfl, rfl⟩

/-- The miss path when the read error is raised: the process is killed, with
the cache entry keeping its record id and range. -/
theorem get_full_seq_miss_err (s : Index) (c : Nat) (u : List Nat) (row : Row)
    (hrow : selectById s.index_db c = some row)
    (hmiss : ¬ (c = s.cache_chrom ∧ 1 = s.cache_start ∧ columnU32 row.slen = s.cache_end))
    (hoff : 0 ≤ row.boff) (hgz : s.gzip_format = false) (hn : columnU32 row.blen = 0) :
    (pyfastx_index_get_full_seq s c u).1
        = Except.error (Failure.killed (PyExc.RuntimeError (bytes "reading sequence error"))) ∧
      (pyfastx_index_get_full_seq s c u).2.cache_chrom = s.cache_chrom ∧
      (pyfastx_index_get_full_seq s c u).2.cache_start = s.cache_start ∧
      (pyfastx_index_get_full_seq s c u).2.cache_end = s.cache_end ∧
      (pyfastx_index_get_full_seq s c u).2.index_db = s.index_db ∧
      (pyfastx_index_get_full_seq s c u).2.gzip_format = s.gzip_format := by
  obtain ⟨o, ho⟩ := Int.eq_ofNat_of_zero_le hoff
  have hsk : fseek_set s.fpos s.feof row.boff = (o, false) := by
    unfold fseek_set
    rw [if_neg (by omega), ho, Int.toNat_ofNat]
  have hrd : fread_item s.file o false 0 u = (0, u, o, false) := by
    unfold fread_item
    rw [if_pos rfl]
  unfold pyfastx_index_get_full_seq
  simp only [hrow, if_neg hmiss, hgz, hsk, hn, hrd]
  simp

/-- A fetch changes neither the store nor the kind of the source. -/
theorem get_full_seq_frame (s : Index) (c : Nat) (u : List Nat) :
    (pyfastx_index_get_full_seq s c u).2.index_db = s.index_db ∧
    (pyfastx_index_get_full_seq s c u).2.gzip_format = s.gzip_format := by
  unfold pyfastx_index_get_full_seq
  cases hrow : selectById s.index_db c with
  | none => exact ⟨rfl, rfl⟩
  | some row =>
    simp only
    split
    · exact ⟨rfl, rfl⟩
    · split
      · exact ⟨rfl, rfl⟩
      · split <;> exact ⟨rfl, rfl⟩

/-- The outcome of a fetch on a store with non-negative offsets is one of:
no row, a hit, a miss whose read raises no error, a miss whose read error
kills the process. -/
theorem get_full_seq_cases (s : Index) (c : Nat) (u : List Nat)
    (hoff : ∀ r ∈ s.index_db, 0 ≤ r.boff) :
    (selectById s.index_db c = none ∧
      pyfastx_index_get_full_seq s c u
        = (Except.error (Failure.raised (PyExc.KeyError (bytes "Can not found sequence"))), s)) ∨
    (∃ row, selectById s.index_db c = some row ∧
      (c = s.cache_chrom ∧ 1 = s.cache_start ∧ columnU32 row.slen = s.cache_end) ∧
      pyfastx_index_get_full_seq s c u = (Except.ok s.cache_seq, s)) ∨
    (∃ row p, selectById s.index_db c = some row ∧
      ¬ (c = s.cache_chrom ∧ 1 = s.cache_start ∧ columnU32 row.slen = s.cache_end) ∧
      (s.gzip_format = true ∨ columnU32 row.blen ≠ 0) ∧
      (pyfastx_index_get_full_seq s c u).1 = Except.ok (some p) ∧
      (pyfastx_index_get_full_seq s c u).2.cache_seq = some p ∧
      (pyfastx_index_get_full_seq s c u).2.cache_chrom = c ∧
      (pyfastx_index_get_full_seq s c u).2.cache_start = 1 ∧
      (pyfastx_index_get_full_seq s c u).2.cache_end = columnU32 row.slen ∧
      (pyfastx_index_get_full_seq s c u).2.reads = s.reads + 1) ∨
    (∃ row, selectById s.index_db c = some row ∧
      (pyfastx_index_get_full_seq s c u).1
        = Except.error (Failure.killed (PyExc.RuntimeError (bytes "reading sequence error"))) ∧
      (pyfastx_index_get_full_seq s c u).2.cache_chrom = s.cache_chrom ∧
      (pyfastx_index_get_full_seq s c u).2.cache_start = s.cache_start ∧
      (pyfastx_index_get_full_seq s c u).2.cache_end = s.cache_end) := by
  cases hrow : selectById s.index_db c with
  | none => exact Or.inl ⟨rfl, get_full_seq_no_row s c u hrow⟩
  | some row =>
    have hmem : row ∈ s.index_db := List.mem_of_find?_eq_some hrow
    by_cases hhit : c = s.cache_chrom ∧ 1 = s.cache_start ∧ columnU32 row.slen = s.cache_end
    · exact Or.inr (Or.inl ⟨row, rfl, hhit, get_full_seq_hit s c u row hrow hhit⟩)
    · by_cases hok : s.gzip_format = true ∨ columnU32 row.blen ≠ 0
      · obtain ⟨p, h1, h2, h3, h4, h5, h6, -, -⟩ :=
          get_full_seq_miss_ok s c u row hrow hhit (hoff row hmem) hok
        exact Or.inr (Or.inr (Or.inl ⟨row, p, rfl, hhit, hok, h1, h2, h3, h4, h5, h6⟩))
      · have hgz : s.gzip_format = false := by
          cases h : s.gzip_format with
          | true => exact absurd (Or.inl h) hok
          | false => rfl
        have hn : columnU32 row.blen = 0 := by
          by_contra h; exact hok (Or.inr h)
        obtain ⟨h1, h2, h3, h4, -, -⟩ :=
          get_full_seq_miss_err s c u row hrow hhit (hoff row hmem) hgz hn
        exact Or.inr (Or.inr (Or.inr ⟨row, rfl, h1, h2, h3, h4⟩))

/-- Cache invariant of the reachable states: when the cache entry covers a
range starting at 1, its record id is stored and a read of that record
raises no error. -/
theorem reachable_cache_inv (s : Index) (hs : Reachable s)
    (hoff : ∀ r ∈ s.index_db, 0 ≤ r.boff) :
    s.cache_start = 1 → ∃ row, selectById s.index_db s.cache_chrom = some row ∧
      (s.gzip_format = true ∨ columnU32 row.blen ≠ 0) := by
  induction hs with
  | start s h1 h2 h3 h4 => intro h; rw [h2] at h; exact absurd h (by decide)
  | fetch s c u hc hr ih =>
    obtain ⟨f1, f2⟩ := get_full_seq_frame s c u
    rw [f1] at hoff
    rw [f1, f2]
    rcases get_full_seq_cases s c u hoff with ⟨-, h⟩ | ⟨row, -, -, h⟩ |
      ⟨row, p, hrow, -, hok, -, -, h3, -, -, -⟩ | ⟨row, -, -, h2, h3, -⟩
    · rw [h]; exact ih hoff
    · rw [h]; exact ih hoff
    · intro _
      rw [h3]
      exact ⟨row, hrow, hok⟩
    · rw [h2, h3]; exact ih hoff
  | clear s hr ih =>
    intro h
    simp [pyfastx_index_cache_clear] at h

/-- C9: in a state reached from the initial one, over a store whose offsets
are not negative, after a fetch of `id` that succeeds a second fetch of `id`
is a cache hit, returning the same pointer and leaving the index as it is
(no read is issued); and after a successful fetch of another id, a fetch of
`id` issues one read and leaves the cache entry `(id, 1, sequence length of
id)` with the buffer it returns. -/
theorem C9_cache_hit_then_miss (s : Index) (hs : Reachable s)
    (hoff : ∀ r ∈ s.index_db, 0 ≤ r.boff)
    (id : Nat) (u1 : List Nat) (p : Option (List Nat))
    (h1 : (pyfastx_index_get_full_seq s id u1).1 = Except.ok p) :
    (∀ u2, pyfastx_index_get_full_seq (pyfastx_index_get_full_seq s id u1).2 id u2
        = (Except.ok p, (pyfastx_index_get_full_seq s id u1).2) ∧
      (pyfastx_index_get_full_seq (pyfastx_index_get_full_seq s id u1).2 id u2).2.reads
        = (pyfastx_index_get_full_seq s id u1).2.reads) ∧
    (∀ id2 u2 p2, id2 ≠ id →
      (pyfastx_index_get_full_seq (pyfastx_index_get_full_seq s id u1).2 id2 u2).1 = Except.ok p2 →
      ∀ u3, ∃ row p3, selectById s.index_db id = some row ∧
        (pyfastx_index_get_full_seq
          (pyfastx_index_get_full_seq (pyfastx_index_get_full_seq s id u1).2 id2 u2).2 id u3).1
          = Except.ok (some p3) ∧
        (pyfastx_index_get_full_seq
          (pyfastx_index_get_full_seq (pyfastx_index_get_full_seq s id u1).2 id2 u2).2 id u3).2.reads
          = (pyfastx_index_get_full_seq (pyfastx_index_get_full_seq s id u1).2 id2 u2).2.reads + 1 ∧
        (pyfastx_index_get_full_seq
          (pyfastx_index_get_full_seq (pyfastx_index_get_full_seq s id u1).2 id2 u2).2 id u3).2.cache_chrom
          = id ∧
        (pyfastx_index_get_full_seq
          (pyfastx_index_get_full_seq (pyfastx_index_get_full_seq s id u1).2 id2 u2).2 id u3).2.cache_start
          = 1 ∧
        (pyfastx_index_get_full_seq
          (pyfastx_index_get_full_seq (pyfastx_index_get_full_seq s id u1).2 id2 u2).2 id u3).2.cache_end
          = columnU32 row.slen ∧
        (pyfastx_index_get_full_seq
          (pyfastx_index_get_full_seq (pyfastx_index_get_full_seq s id u1).2 id2 u2).2 id u3).2.cache_seq
          = some p3) := by
  have hsum : ∃ row, selectById s.index_db id = some row ∧
      (pyfastx_index_get_full_seq s id u1).2.cache_chrom = id ∧
      (s.gzip_format = true ∨ columnU32 row.blen ≠ 0) ∧
      ∀ u2, pyfastx_index_get_full_seq (pyfastx_index_get_full_seq s id u1).2 id u2
        = (Except.ok p, (pyfastx_index_get_full_seq s id u1).2) := by
    rcases get_full_seq_cases s id u1 hoff with ⟨-, h⟩ | ⟨row, hrow, hhit, h⟩ |
      ⟨row, p1, hrow, -, hok, e1, e2, e3, e4, e5, -⟩ | ⟨row, -, h, -⟩
    · rw [h] at h1; exact absurd h1 (by simp)
    · rw [h] at h1 ⊢
      simp only [Except.ok.injEq] at h1
      obtain ⟨row1, hrow1, hok⟩ := reachable_cache_inv s hs hoff hhit.2.1.symm
      rw [← hhit.1, hrow] at hrow1
      simp only [Option.some.injEq] at hrow1
      subst hrow1
      refine ⟨row, hrow, hhit.1.symm, hok, ?_⟩
      intro u2
      rw [get_full_seq_hit s id u2 row hrow hhit, h1]
    · refine ⟨row, hrow, e3, hok, ?_⟩
      intro u2
      rw [e1] at h1
      simp only [Except.ok.injEq] at h1
      have hrow1 : selectById (pyfastx_index_get_full_seq s id u1).2.index_db id = some row := by
        rw [(get_full_seq_frame s id u1).1]; exact hrow
      rw [get_full_seq_hit _ id u2 row hrow1 ⟨e3.symm, e4.symm, e5.symm⟩, e2, h1]
    · rw [h] at h1; exact absurd h1 (by simp)
  obtain ⟨row, hrow, hc1, hok, hpart1⟩ := hsum
  obtain ⟨d1, g1⟩ := get_full_seq_frame s id u1
  have hoff1 : ∀ r ∈ (pyfastx_index_get_full_seq s id u1).2.index_db, 0 ≤ r.boff := by
    rw [d1]; exact hoff
  refine ⟨fun u2 => ⟨hpart1 u2, by rw [hpart1 u2]⟩, ?_⟩
  intro id2 u2 p2 hne h2 u3
  obtain ⟨d2, g2⟩ := get_full_seq_frame (pyfastx_index_get_full_seq s id u1).2 id2 u2
  have hc2 : (pyfastx_index_get_full_seq (pyfastx_index_get_full_seq s id u1).2 id2 u2).2.cache_chrom
      = id2 := by
    rcases get_full_seq_cases (pyfastx_index_get_full_seq s id u1).2 id2 u2 hoff1 with
      ⟨-, h⟩ | ⟨row2, -, hhit, -⟩ | ⟨row2, q, -, -, -, -, -, e3, -, -, -⟩ | ⟨row2, -, h, -⟩
    · rw [h] at h2; exact absurd h2 (by simp)
    · exact absurd (hhit.1.trans hc1) hne
    · exact e3
    · rw [h] at h2; exact absurd h2 (by simp)
  have hrow2 : selectById
      (pyfastx_index_get_full_seq (pyfastx_index_get_full_seq s id u1).2 id2 u2).2.index_db id
      = some row := by
    rw [d2, d1]; exact hrow
  have hmem : row ∈ s.index_db := List.mem_of_find?_eq_some hrow
  obtain ⟨p3, k1, k2, k3, k4, k5, k6, -, -⟩ := get_full_seq_miss_ok
    (pyfastx_index_get_full_seq (pyfastx_index_get_full_seq s id u1).2 id2 u2).2 id u3 row hrow2
    (by rw [hc2]; intro h; exact hne h.1.symm) (hoff row hmem) (by rw [g2, g1]; exact hok)
  exact ⟨row, p3, hrow, k1, k6, k3, k4, k5, k2⟩

/-- C9 on the built sample index: record 1 is fetched, fetched again (a hit),
then record 2 is fetched and record 1 once more (a miss with one read). -/
theorem C9_cache_hit_then_miss_witness :
    (pyfastx_index_get_full_seq (pyfastx_index_get_full_seq builtSample 1 []).2 1 []
        = (Except.ok (some (bytes "ACGTAC")), (pyfastx_index_get_full_seq builtSample 1 []).2) ∧
      (pyfastx_index_get_full_seq (pyfastx_index_get_full_seq builtSample 1 []).2 1 []).2.reads
        = (pyfastx_index_get_full_seq builtSample 1 []).2.reads) ∧
    (∃ row p3, selectById builtSample.index_db 1 = some row ∧
        (pyfastx_index_get_full_seq
          (pyfastx_index_get_full_seq (pyfastx_index_get_full_seq builtSample 1 []).2 2 []).2 1 []).1
          = Except.ok (some p3) ∧
        (pyfastx_index_get_full_seq
          (pyfastx_index_get_full_seq (pyfastx_index_get_full_seq builtSample 1 []).2 2 []).2 1 []).2.reads
          = (pyfastx_index_get_full_seq (pyfastx_index_get_full_seq builtSample 1 []).2 2 []).2.reads + 1 ∧
        (pyfastx_index_get_full_seq
          (pyfastx_index_get_full_seq (pyfastx_index_get_full_seq builtSample 1 []).2 2 []).2 1 []).2.cache_chrom
          = 1 ∧
        (pyfastx_index_get_full_seq
          (pyfastx_index_get_full_seq (pyfastx_index_get_full_seq builtSample 1 []).2 2 []).2 1 []).2.cache_start
          = 1 ∧
        (pyfastx_index_get_full_seq
          (pyfastx_index_get_full_seq (pyfastx_index_get_full_seq builtSample 1 []).2 2 []).2 1 []).2.cache_end
          = columnU32 row.slen ∧
        (pyfastx_index_get_full_seq
          (pyfastx_index_get_full_seq (pyfastx_index_get_full_seq builtSample 1 []).2 2 []).2 1 []).2.cache_seq
          = some p3) :=
  ⟨(C9_cache_hit_then_miss builtSample (Reachable.start builtSample rfl rfl rfl rfl) (by decide)
      1 [] (some (bytes "ACGTAC")) rfl).1 [],
   (C9_cache_hit_then_miss builtSample (Reachable.start builtSample rfl rfl rfl rfl) (by decide)
      1 [] (some (bytes "ACGTAC")) rfl).2 2 [] (some (bytes "TTTT")) (by decide) rfl []⟩

/-! ### C10 -/

theorem loopBodyWith_all_ok (calls : StoreCalls) (hok : ∀ k, calls.step_ok k = true)
    (kf : Option (List Nat → Option (List Nat))) (sn : BuildState × Nat) (line : List Nat) :
    (loopBodyWith calls kf sn line).1 = loopBody kf sn.1 line := by
  unfold loopBodyWith loopBody commitRowWith
  simp only [hok, if_true]
  by_cases hh : line.head? = some 62
  · by_cases hs : sn.1.start > 0
    · simp only [hh, hs, if_true]
    · simp only [hh, hs, if_true, if_false]
  · simp only [hh, if_false]

/-- When no store call fails, the build with store outcomes is the build. -/
theorem create_index_with_all_ok (calls : StoreCalls) (h1 : calls.schema_ok = true)
    (h2 : calls.begin_ok = true) (hok : ∀ k, calls.step_ok k = true) (self : Index) :
    pyfastx_create_index_with calls self = pyfastx_create_index self := by
  have hfold : ∀ (lines : List (List Nat)) (sn : BuildState × Nat),
      (lines.foldl (loopBodyWith calls self.key_func) sn).1
        = scanLines self.key_func sn.1 lines := by
    intro lines
    induction lines with
    | nil => intro sn; rfl
    | cons l ls ih =>
      intro sn
      rw [List.foldl_cons, ih, loopBodyWith_all_ok calls hok, scanLines_cons]
  unfold pyfastx_create_index_with pyfastx_create_index buildIndex finishBuild commitRowWith
  simp only [h1, h2, hok, if_true, hfold]
  simp

/-- A failure of the schema creation or of the transaction start aborts the
build with a RuntimeError and leaves no row. -/
theorem create_index_with_abort (calls : StoreCalls) (self : Index)
    (h : calls.schema_ok = false ∨ calls.begin_ok = false) :
    (pyfastx_create_index_with calls self).2 = some (PyExc.RuntimeError calls.errmsg) ∧
    (pyfastx_create_index_with calls self).1.index_db = [] := by
  unfold pyfastx_create_index_with
  rcases h with h | h
  · simp [h]
  · by_cases h1 : calls.schema_ok = false
    · simp [h1]
    · simp [h1, h]

/-- C11, the code at the failing input: over `>a\nAC\n>b\nGG\n`, when the store
refuses the first insert (and every other store call succeeds), the build
goes on, leaves no error pending and ends with the row of the second
record in the store; the row of the first record is missing. -/
theorem C11_partial_build_after_refused_insert :
    (pyfastx_create_index_with refuseFirstInsert
        (sampleIndex (bytes ">a\nAC\n>b\nGG\n") false none)).2 = none ∧
    (pyfastx_create_index_with refuseFirstInsert
        (sampleIndex (bytes ">a\nAC\n>b\nGG\n") false none)).1.index_db =
      [{ id := 1, chrom := some (bytes "b"), boff := 9, blen := 3, slen := 2, llen := 3, elen := 1,
         norm := 1, descr := some (bytes "b") }] := by
  decide

/-! ### C12 -/

/-- C12, the code at the failing input: on a gzip source whose adapter reports
a failure for seek and read (the buffer stays as `malloc` left it, here
`JUNK`), the fetch of record 1 raises nothing, returns the buffer content
and records the record as cached. -/
theorem C12_gzip_failure_not_reported :
    zran_seek_read builtBrokenGz.gz_ok builtBrokenGz.file 3 3 (bytes "JUNK") = (-1, bytes "JUNK") ∧
    (pyfastx_index_get_full_seq builtBrokenGz 1 (bytes "JUNK")).1 = Except.ok (some (bytes "JUN")) ∧
    (pyfastx_index_get_full_seq builtBrokenGz 1 (bytes "JUNK")).2.cache_chrom = 1 ∧
    (pyfastx_index_get_full_seq builtBrokenGz 1 (bytes "JUNK")).2.cache_start = 1 ∧
    (pyfastx_index_get_full_seq builtBrokenGz 1 (bytes "JUNK")).2.cache_end = 2 ∧
    (pyfastx_index_get_full_seq builtBrokenGz 1 (bytes "JUNK")).2.cache_seq = some (bytes "JUN") := by
  refine ⟨by decide, by rfl, by decide, by decide, by decide, by decide⟩

/-! ### C16 -/

/-- A run in which no line kills the process goes through the whole loop. -/
theorem scanLinesRun_alive (kf : Option (List Nat → Option (List Nat))) (lines : List (List Nat)) :
    ∀ st : BuildState, (∀ line ∈ lines, keyCallKills kf line = false) →
      scanLinesRun kf st lines = some (scanLines kf st lines) := by
  induction lines with
  | nil => intro st _; rfl
  | cons l rest ih =>
    intro st h
    have hl : keyCallKills kf l = false := h l (List.mem_cons_self l rest)
    rw [scanLinesRun, hl, if_neg (by decide), scanLines_cons]
    exact ih _ (fun x hx => h x (List.mem_cons_of_mem l hx))

/-- A run is killed as soon as the statements for one of its lines kill the
process. -/
theorem scanLinesRun_killed (kf : Option (List Nat → Option (List Nat))) (lines : List (List Nat)) :
    ∀ st : BuildState, (∃ line ∈ lines, keyCallKills kf line = true) →
      scanLinesRun kf st lines = none := by
  induction lines with
  | nil => intro st h; obtain ⟨l, hl, -⟩ := h; exact absurd hl (List.not_mem_nil l)
  | cons l rest ih =>
    intro st h
    by_cases hl : keyCallKills kf l = true
    · rw [scanLinesRun, if_pos hl]
    · rw [scanLinesRun, if_neg hl]
      obtain ⟨x, hx, hk⟩ := h
      rcases List.mem_cons.mp hx with e | e
      · rw [e] at hk; exact absurd hk hl
      · exact ih _ ⟨x, e, hk⟩

/-- A run in which every key call gives a string returns, and what it returns
is the result of `pyfastx_create_index`. -/
theorem create_index_run_returned (self : Index)
    (h : ∀ line ∈ ksLines self.file, keyCallKills self.key_func line = false) :
    pyfastx_create_index_run self = Run.returned (pyfastx_create_index self) := by
  unfold pyfastx_create_index_run
  rw [scanLinesRun_alive self.key_func _ buildInit h]
  rfl

/-- With the default key policy every run returns. -/
theorem create_index_run_default_key (self : Index) (h : self.key_func = none) :
    pyfastx_create_index_run self = Run.returned (pyfastx_create_index self) := by
  apply create_index_run_returned
  intro line _
  rw [h]
  rfl

/-- A run over a stream with a header line on which the key call gives no
string is killed: nothing is returned. -/
theorem create_index_run_killed (self : Index)
    (h : ∃ line ∈ ksLines self.file, keyCallKills self.key_func line = true) :
    pyfastx_create_index_run self = Run.killed := by
  unfold pyfastx_create_index_run
  rw [scanLinesRun_killed self.key_func _ buildInit h]

/-- A header line whose description is not valid UTF-8 kills the process
whatever the key function is: the argument of the call cannot be built. -/
theorem keyCallKills_not_utf8 (f : List Nat → Option (List Nat)) (line : List Nat)
    (hh : line.head? = some 62)
    (hu : utf8_valid (cstr ((line.drop 1).take
      (line.length - (if line.getLast? = some 13 then 2 else 1)))) = false) :
    keyCallKills (some f) line = true := by
  unfold keyCallKills
  simp only [if_pos hh, hu, Bool.not_false, Bool.true_or]

/-- C16, the code at the failing input: over `>a\nAC\n` with a key function whose
result is not a string, the description `a` is valid UTF-8 and is handed
to the key function, `PyUnicode_AsUTF8` is run on its result, and the
process is killed: the build returns nothing, so that no key-function
error reaches the caller; with a key function that returns a string the
same build returns. -/
theorem C16_non_string_key_kills_build :
    utf8_valid (bytes "a") = true ∧
    keyCallKills (some (fun _ => none)) (bytes ">a") = true ∧
    pyfastx_create_index_run (sampleIndex (bytes ">a\nAC\n") false (some (fun _ => none)))
      = Run.killed ∧
    pyfastx_create_index_run (sampleIndex (bytes ">a\nAC\n") false (some upperKey))
      = Run.returned (pyfastx_create_index (sampleIndex (bytes ">a\nAC\n") false (some upperKey))) :=
  ⟨by decide, by decide,
   create_index_run_killed _ ⟨bytes ">a", by decide, by decide⟩,
   create_index_run_returned _ (by decide)⟩

/-! ### C17 -/

/-- A disk-backed index is loaded exactly when the artifact at the source
path followed by `.fxi` exists. -/
theorem build_index_disk_backed (fs : String → Option (List Row)) (file_name : String)
    (content : List Nat) (is_gzip gz_ok uppercase : Bool)
    (kf : Option (List Nat → Option (List Nat))) :
    (pyfastx_build_index fs
        (pyfastx_init_index file_name content is_gzip gz_ok uppercase false kf)).2.2 = BuildPath.load
      ↔ (fs (file_name ++ ".fxi")).isSome = true := by
  unfold pyfastx_build_index file_exists pyfastx_init_index
  simp only [Bool.false_eq_true, if_false]
  split
  · rename_i h; simp [h]
  · rename_i h; simp [h]

/-- A memory-mode index is built when no file named `:memory:` exists. -/
theorem build_index_memory_mode (fs : String → Option (List Row)) (file_name : String)
    (content : List Nat) (is_gzip gz_ok uppercase : Bool)
    (kf : Option (List Nat → Option (List Nat))) (h : fs ":memory:" = none) :
    (pyfastx_build_index fs
        (pyfastx_init_index file_name content is_gzip gz_ok uppercase true kf)).2.2
      = BuildPath.create := by
  unfold pyfastx_build_index file_exists pyfastx_init_index
  simp [h]

/-- C17, the code at the failing input: for an index initialised in memory mode,
when the working directory holds a file named `:memory:`, the existence
check succeeds and the load path is taken: the index ends with an empty
store instead of the row built from `>a\nAC\n`. -/
theorem C17_memory_mode_takes_load_path :
    (sampleIndex (bytes ">a\nAC\n") false none).index_file = ":memory:" ∧
    (pyfastx_build_index memoryNamedFile (sampleIndex (bytes ">a\nAC\n") false none)).2.2
      = BuildPath.load ∧
    (pyfastx_build_index memoryNamedFile (sampleIndex (bytes ">a\nAC\n") false none)).1.index_db = [] ∧
    (pyfastx_create_index (sampleIndex (bytes ">a\nAC\n") false none)).1.index_db.length = 1 := by
  decide

/-! ### C19 -/

/-- C19, the code at the failing input: the file `>a\nAC` ends without a
newline, and its record is stored with byte length 3 from offset 3, where
the file holds the two bytes `AC`. The fetch of record 1 issues a read that
fails (`fread` returns 0 at the end of the file, so no error is raised)
and leaves the last byte of the block as `malloc` handed it out, here `X`.
The fetch returns `ACX` and records the cache entry (1, 1, 2); the next
fetch of record 1 is a hit, issues no read, and returns `ACX`, which is
not the normalised text `AC` of the record. -/
theorem C19_hit_after_failed_read :
    builtUnterminated.index_db.map (fun r => (r.id, r.boff, r.blen, r.slen)) = [(1, 3, 3, 2)] ∧
    remove_space ((builtUnterminated.file.drop 3).take 3) = bytes "AC" ∧
    (fread_item builtUnterminated.file 3 false 3 (bytes "XXXX")).1 = 0 ∧
    (pyfastx_index_get_full_seq builtUnterminated 1 (bytes "XXXX")).1
      = Except.ok (some (bytes "ACX")) ∧
    (pyfastx_index_get_full_seq builtUnterminated 1 (bytes "XXXX")).2.cache_chrom = 1 ∧
    (pyfastx_index_get_full_seq builtUnterminated 1 (bytes "XXXX")).2.cache_start = 1 ∧
    (pyfastx_index_get_full_seq builtUnterminated 1 (bytes "XXXX")).2.cache_end = 2 ∧
    (pyfastx_index_get_full_seq builtUnterminated 1 (bytes "XXXX")).2.cache_seq
      = some (bytes "ACX") ∧
    (pyfastx_index_get_full_seq
        (pyfastx_index_get_full_seq builtUnterminated 1 (bytes "XXXX")).2 1 []).1
      = Except.ok (some (bytes "ACX")) ∧
    (pyfastx_index_get_full_seq
        (pyfastx_index_get_full_seq builtUnterminated 1 (bytes "XXXX")).2 1 []).2.reads
      = (pyfastx_index_get_full_seq builtUnterminated 1 (bytes "XXXX")).2.reads := by
  refine ⟨by decide, by decide, by decide, by rfl, by decide, by decide, by decide, by decide,
    by rfl, by decide⟩

/-! ### C20 -/

/-- C20, the code at the failing input: on the index built over `>a\nAC\n>e\n`,
record 2 is stored with byte length 0; its fetch reaches the statement
that raises the RuntimeError "reading sequence error" (`fread` of an item
of size 0 returns 0 and the end-of-file indicator is clear) and, the
thread state being detached there, the process is killed: the fetch does
not return the empty sequence. -/
theorem C20_empty_record_read_error :
    builtEmptyRecord.index_db.map (fun r => (r.id, r.boff, r.blen, r.slen))
      = [(1, 3, 3, 2), (2, 9, 0, 0)] ∧
    builtEmptyRecord.gzip_format = false ∧
    fread_item builtEmptyRecord.file 9 false 0 [] = (0, [], 9, false) ∧
    (pyfastx_index_get_full_seq builtEmptyRecord 2 []).1
      = Except.error (Failure.killed (PyExc.RuntimeError (bytes "reading sequence error"))) := by
  refine ⟨by decide, by decide, by decide, by rfl⟩

/-! ### C18 -/

theorem inflateFrom_at_end {σ : Type} (z : GzStream σ) (n : Nat) (s : σ) (h : z.step s = none) :
    inflateFrom z n s = ([], s) := by
  cases n with
  | zero => rfl
  | succ n => simp only [inflateFrom, h]

theorem inflateFrom_length_le {σ : Type} (z : GzStream σ) (n : Nat) (s : σ) :
    (inflateFrom z n s).1.length ≤ n := by
  induction n generalizing s with
  | zero => simp [inflateFrom]
  | succ n ih =>
    cases h : z.step s with
    | none => simp [inflateFrom, h]
    | some p =>
      obtain ⟨b, s1⟩ := p
      simp only [inflateFrom, h, List.length_cons]
      have := ih s1
      omega

/-- Inflation that delivers fewer bytes than asked for has reached the end of
the stream. -/
theorem inflateFrom_short {σ : Type} (z : GzStream σ) (n : Nat) (s : σ)
    (h : (inflateFrom z n s).1.length < n) : z.step (inflateFrom z n s).2 = none := by
  induction n generalizing s with
  | zero => simp at h
  | succ n ih =>
    cases hs : z.step s with
    | none => simp only [inflateFrom, hs]
    | some p =>
      obtain ⟨b, s1⟩ := p
      simp only [inflateFrom, hs, List.length_cons] at h ⊢
      exact ih s1 (by omega)

/-- Inflating `a + b` bytes is inflating `a` bytes and then `b` more. -/
theorem inflateFrom_add {σ : Type} (z : GzStream σ) (a b : Nat) (s : σ) :
    inflateFrom z (a + b) s =
      ((inflateFrom z a s).1 ++ (inflateFrom z b (inflateFrom z a s).2).1,
       (inflateFrom z b (inflateFrom z a s).2).2) := by
  induction a generalizing s with
  | zero => simp [inflateFrom]
  | succ a ih =>
    have e : a + 1 + b = (a + b) + 1 := by omega
    rw [e]
    cases hs : z.step s with
    | none =>
      simp only [inflateFrom, hs, List.nil_append]
      rw [inflateFrom_at_end z b s hs]
    | some p =>
      obtain ⟨x, s1⟩ := p
      simp only [inflateFrom, hs, ih s1, List.cons_append]

/-- Reading after inflating to the target is decompressing from the start and
discarding the first `target` bytes. -/
theorem inflateFrom_read_drop {σ : Type} (z : GzStream σ) (target n : Nat) :
    (inflateFrom z n (inflateFrom z target z.start).2).1
      = (inflateFrom z (target + n) z.start).1.drop target := by
  rw [inflateFrom_add]
  simp only
  have hle := inflateFrom_length_le z target z.start
  by_cases hfull : (inflateFrom z target z.start).1.length = target
  · rw [List.drop_append_of_le_length (by omega), List.drop_eq_nil_of_le (by omega),
      List.nil_append]
  · have hend := inflateFrom_short z target z.start (by omega)
    rw [inflateFrom_at_end z n _ hend, List.append_nil, List.drop_eq_nil_of_le (by omega)]

/-- The slice of the fully decompressed stream is what decompressing just far
enough and discarding the first `target` bytes gives. -/
theorem inflateAll_slice {σ : Type} (z : GzStream σ) (total target n : Nat)
    (h : target + n ≤ total) :
    ((inflateAll z total).drop target).take n
      = (inflateFrom z (target + n) z.start).1.drop target := by
  obtain ⟨r, hr⟩ : ∃ r, total = (target + n) + r := ⟨total - (target + n), by omega⟩
  unfold inflateAll
  rw [hr, inflateFrom_add]
  simp only
  have hle := inflateFrom_length_le z (target + n) z.start
  by_cases hfull : (inflateFrom z (target + n) z.start).1.length = target + n
  · rw [List.drop_append_of_le_length (by omega), List.take_append_of_le_length
      (by rw [List.length_drop]; omega), List.take_of_length_le (by rw [List.length_drop]; omega)]
  · have hend := inflateFrom_short z (target + n) z.start (by omega)
    rw [inflateFrom_at_end z r _ hend, List.append_nil,
      List.take_of_length_le (by rw [List.length_drop]; omega)]

/-- Every checkpoint of a built table holds the state the inflater is in
after its offset. -/
theorem zran_build_index_states {σ : Type} (z : GzStream σ) (span count off : Nat) (s : σ)
    (hs : s = (inflateFrom z off z.start).2) :
    ∀ p ∈ zran_build_index z span count off s, p.2 = (inflateFrom z p.1 z.start).2 := by
  induction count generalizing off s with
  | zero => intro p hp; simp [zran_build_index] at hp
  | succ k ih =>
    intro p hp
    simp only [zran_build_index, List.mem_cons] at hp
    rcases hp with hp | hp
    · rw [hp]; exact hs
    · refine ih (off + span) _ ?_ p hp
      rw [inflateFrom_add, hs]

theorem zran_nearest_spec {σ : Type} (z : GzStream σ) (pts : List (Nat × σ)) (target : Nat)
    (best : Nat × σ) (hpts : ∀ p ∈ pts, p.2 = (inflateFrom z p.1 z.start).2)
    (hb1 : best.1 ≤ target) (hb2 : best.2 = (inflateFrom z best.1 z.start).2) :
    (zran_nearest pts target best).1 ≤ target ∧
    (zran_nearest pts target best).2
      = (inflateFrom z (zran_nearest pts target best).1 z.start).2 := by
  induction pts generalizing best with
  | nil => exact ⟨hb1, hb2⟩
  | cons p rest ih =>
    have hrest : ∀ q ∈ rest, q.2 = (inflateFrom z q.1 z.start).2 :=
      fun q hq => hpts q (by simp [hq])
    unfold zran_nearest
    split
    · rename_i h
      exact ih p hrest h.1 (hpts p (by simp))
    · exact ih best hrest hb1 hb2

/-- A seek through any table of checkpoints that hold the right states puts
the inflater where decompressing from the start would. -/
theorem zran_seek_state {σ : Type} (z : GzStream σ) (pts : List (Nat × σ)) (target : Nat)
    (hpts : ∀ p ∈ pts, p.2 = (inflateFrom z p.1 z.start).2) :
    zran_seek z pts target = (inflateFrom z target z.start).2 := by
  obtain ⟨h1, h2⟩ := zran_nearest_spec z pts target (0, z.start) hpts (Nat.zero_le _) rfl
  unfold zran_seek
  have e : target = (zran_nearest pts target (0, z.start)).1
      + (target - (zran_nearest pts target (0, z.start)).1) := by omega
  conv => rhs; rw [e, inflateFrom_add]
  simp only
  rw [← h2]

/-- C18: for a compressed source whose decompressed stream is the content the
index works on, and every stored span inside it, the bytes obtained by
`zran_seek` to the record offset followed by `zran_read` of the byte
length, through the checkpoint table built over the source, equal the same
range of the stream obtained by decompressing the whole file from the
start; and they are the bytes `pyfastx_index_get_full_seq` receives in its
buffer. -/
theorem C18_seek_read_equals_slice {σ : Type} (z : GzStream σ) (span count total : Nat)
    (self : Index) (row : Row) (mem : List Nat)
    (hfile : self.file = inflateAll z total) (hok : self.gz_ok = true)
    (hoff : 0 ≤ row.boff) (hin : row.boff.toNat + columnU32 row.blen ≤ total) :
    (zran_read z (zran_seek z (zran_build_index z span count 0 z.start) row.boff.toNat)
        (columnU32 row.blen)).1
      = ((inflateAll z total).drop row.boff.toNat).take (columnU32 row.blen) ∧
    (zran_seek_read self.gz_ok self.file row.boff (columnU32 row.blen) mem).2
      = (zran_read z (zran_seek z (zran_build_index z span count 0 z.start) row.boff.toNat)
          (columnU32 row.blen)).1
        ++ mem.drop (zran_read z (zran_seek z (zran_build_index z span count 0 z.start)
          row.boff.toNat) (columnU32 row.blen)).1.length := by
  have hread : (zran_read z (zran_seek z (zran_build_index z span count 0 z.start) row.boff.toNat)
        (columnU32 row.blen)).1
      = ((inflateAll z total).drop row.boff.toNat).take (columnU32 row.blen) := by
    rw [zran_seek_state z _ _ (zran_build_index_states z span count 0 z.start rfl)]
    unfold zran_read
    rw [inflateFrom_read_drop, inflateAll_slice z total _ _ hin]
  refine ⟨hread, ?_⟩
  rw [hread]
  unfold zran_seek_read
  rw [if_neg (by simp [hok]; omega), hfile]

/-- C18 on the sample stream `ABCDEFGHIJKL` with a checkpoint every 4 bytes: the
span at offset 6 of length 3 is `GHI`. -/
theorem C18_seek_read_equals_slice_witness :
    (zran_read sampleGz (zran_seek sampleGz (zran_build_index sampleGz 4 3 0 sampleGz.start)
        (6 : Int).toNat) (columnU32 3)).1
      = ((inflateAll sampleGz 12).drop (6 : Int).toNat).take (columnU32 3) ∧
    (zran_seek_read true (inflateAll sampleGz 12) 6 (columnU32 3) (bytes "JUNK")).2
      = (zran_read sampleGz (zran_seek sampleGz (zran_build_index sampleGz 4 3 0 sampleGz.start)
          (6 : Int).toNat) (columnU32 3)).1
        ++ (bytes "JUNK").drop (zran_read sampleGz (zran_seek sampleGz
          (zran_build_index sampleGz 4 3 0 sampleGz.start) (6 : Int).toNat) (columnU32 3)).1.length :=
  C18_seek_read_equals_slice sampleGz 4 3 12
    (pyfastx_init_index "seq.fa.gz" (inflateAll sampleGz 12) true true false true none)
    { id := 1, chrom := none, boff := 6, blen := 3, slen := 3, llen := 4, elen := 1, norm := 1,
      descr := none }
    (bytes "JUNK") rfl rfl (by decide) (by decide)

/-! ### The row of a record, by lines -/

/-- On body lines the per-record counters depend only on the terminator
width and on the counters themselves. -/
theorem scanLines_body_agree (kf kf2 : Option (List Nat → Option (List Nat)))
    (B : List (List Nat)) (st st2 : BuildState) (hB : ∀ l ∈ B, isHeader l = false)
    (h1 : st.line_end = st2.line_end) (h2 : st.line_len = st2.line_len)
    (h3 : st.bad_line = st2.bad_line) (h4 : st.seq_len = st2.seq_len) :
    (scanLines kf st B).line_len = (scanLines kf2 st2 B).line_len ∧
    (scanLines kf st B).bad_line = (scanLines kf2 st2 B).bad_line ∧
    (scanLines kf st B).seq_len = (scanLines kf2 st2 B).seq_len := by
  induction B generalizing st st2 with
  | nil => exact ⟨h2, h3, h4⟩
  | cons l ls ih =>
    have hl : isHeader l = false := hB l (by simp)
    have hls : ∀ x ∈ ls, isHeader x = false := fun x hx => hB x (by simp [hx])
    rw [scanLines_cons, scanLines_cons]
    apply ih _ _ hls
    · rw [loopBody_body kf st l hl, loopBody_body kf2 st2 l hl]; exact h1
    · rw [loopBody_body kf st l hl, loopBody_body kf2 st2 l hl]; simp only [h2]
    · rw [loopBody_body kf st l hl, loopBody_body kf2 st2 l hl]; simp only [h2, h3]
    · rw [loopBody_body kf st l hl, loopBody_body kf2 st2 l hl]; simp only [h1, h4]

theorem isHeader_cons (h : List Nat) (hh : isHeader h = true) : ∃ t, h = 62 :: t := by
  cases h with
  | nil => simp [isHeader] at hh
  | cons c t =>
    have : c = 62 := by simpa [isHeader] using hh
    exact ⟨t, by rw [this]⟩

theorem toInt32_small (n : Nat) (h : n = 1 ∨ n = 2) : toInt32 n = (n : Int) := by
  rcases h with h | h <;> subst h <;> rfl

/-- The row of a record, field by field, with the stream given by its lines:
`L1`, then the header line `h`, then the body lines `B`, then either
nothing or lines that start with the next header. The counters come from
`bodyScan`. The last line of the stream may lack its newline. -/
theorem record_lines_fields (kf : Option (List Nat → Option (List Nat))) (s : List Nat)
    (L1 : List (List Nat)) (h : List Nat) (B L2 : List (List Nat))
    (hl : ksLines s = L1 ++ h :: (B ++ L2)) (hh : isHeader h = true)
    (hB : ∀ l ∈ B, isHeader l = false)
    (hL2 : L2 = [] ∨ ∃ h2 rest, L2 = h2 :: rest ∧ isHeader h2 = true)
    (hsz : s.length < 9223372036854775807) :
    ∃ r : Row, (buildIndex kf s).seq[headerLines L1]? = some r ∧
      r.id = (headerLines L1 : Int) + 1 ∧
      r.boff = ((lineBytes L1 + (h.length + 1) : Nat) : Int) ∧
      r.blen = toInt32 (lineBytes B) ∧
      r.elen = (lineEndOf h : Int) ∧
      r.descr = some (cstr (stripCR (h.drop 1))) ∧
      r.chrom = (keyOf kf (cstr (stripCR (h.drop 1)))).map cstr ∧
      r.slen = toInt32 (bodyScan (lineEndOf h) B).seq_len ∧
      r.llen = toInt32 (bodyScan (lineEndOf h) B).line_len ∧
      r.norm = (if (bodyScan (lineEndOf h) B).bad_line > 1 then 0 else 1) := by
  have hbytes := lineBytes_ksLines_le s
  rw [hl] at hbytes
  obtain ⟨r1, r2, r3⟩ := record_row_lines kf L1 h B L2 hh hB hL2 (by omega)
  rw [lineBytes_append, lineBytes_cons, lineBytes_append] at hbytes
  obtain ⟨f1, f2, f3, f4, f5, f6⟩ := loopBody_header_fields kf (scanLines kf buildInit L1) h hh
  have fd := loopBody_header_description kf (scanLines kf buildInit L1) h hh
  have fc := loopBody_header_chrom kf (scanLines kf buildInit L1) h hh
  obtain ⟨t, ht⟩ := isHeader_cons h hh
  have hdesc : cstr ((h.drop 1).take (h.length - (if h.getLast? = some 13 then 2 else 1)))
      = cstr (stripCR (h.drop 1)) := by
    rw [ht]; exact header_description t
  rw [hdesc] at fd fc
  have hpos : (loopBody kf (scanLines kf buildInit L1) h).position + lineBytes B
      < 18446744073709551616 := by
    obtain ⟨-, -, -, c4⟩ := scanLines_count kf L1 buildInit 0 (by simp [buildInit])
      (by simp [buildInit]) (by simp [buildInit])
      (by rw [show buildInit.position = 0 from rfl]; omega)
    rw [show buildInit.position = 0 from rfl, Nat.zero_add] at c4
    rw [f2, c4, u64_of_lt (by omega)]
    omega
  obtain ⟨b1, b2, b3, b4, b5, b6, b7⟩ := scanLines_body kf B
    (loopBody kf (scanLines kf buildInit L1) h) hB hpos
  obtain ⟨a1, a2, a3⟩ := scanLines_body_agree kf none B
    (loopBody kf (scanLines kf buildInit L1) h) { buildInit with line_end := lineEndOf h } hB
    (by rw [f6]; rfl) (by rw [f4]; rfl) (by rw [f5]; rfl) (by rw [f3]; rfl)
  refine ⟨boundRow (scanLines kf (loopBody kf (scanLines kf buildInit L1) h) B) (lineBytes B),
    ?_, ?_, ?_, ?_, ?_, ?_, ?_, ?_, ?_, ?_⟩
  · unfold buildIndex
    rw [hl]
    exact r3
  · simp only [boundRow, r1]
  · simp only [boundRow, r2]
    exact toInt64_of_lt (by omega)
  · simp only [boundRow]
  · simp only [boundRow, b5, f6]
    apply toInt32_small
    split
    · right; rfl
    · left; rfl
  · simp only [boundRow, b4, fd, Option.map_some', cstr_idem]
  · simp only [boundRow, b3, fc, keyOf]
  · simp only [boundRow, a3, bodyScan]
  · simp only [boundRow, a1, bodyScan]
  · simp only [boundRow, a2, bodyScan]
    split <;> rfl

/-- The single row of a stream without any header line: it is committed by
the statements after the loop, with NULL key and description. -/
theorem headerless_row (kf : Option (List Nat → Option (List Nat))) (s : List Nat)
    (hno : ∀ l ∈ ksLines s, isHeader l = false) (hsz : s.length < 9223372036854775807) :
    (buildIndex kf s).seq =
      [{ id := 1, chrom := none, boff := 0, blen := toInt32 (lineBytes (ksLines s))
         slen := toInt32 (bodyScan 1 (ksLines s)).seq_len
         llen := toInt32 (bodyScan 1 (ksLines s)).line_len
         elen := 1
         norm := if (bodyScan 1 (ksLines s)).bad_line > 1 then 0 else 1
         descr := none }] := by
  have hbytes := lineBytes_ksLines_le s
  obtain ⟨b1, b2, b3, b4, b5, b6, b7⟩ := scanLines_body kf (ksLines s) buildInit hno
    (by rw [show buildInit.position = 0 from rfl]; omega)
  obtain ⟨a1, a2, a3⟩ := scanLines_body_agree kf none (ksLines s) buildInit
    { buildInit with line_end := 1 } hno rfl rfl rfl rfl
  rw [show buildInit.position = 0 from rfl, Nat.zero_add] at b7
  rw [show buildInit.seq = [] from rfl] at b1
  rw [show buildInit.start = 0 from rfl] at b2
  rw [show buildInit.chrom = none from rfl] at b3
  rw [show buildInit.description = none from rfl] at b4
  rw [show buildInit.line_end = 1 from rfl] at b5
  have hseq : (buildIndex kf s).seq = (scanLines kf buildInit (ksLines s)).seq
      ++ [boundRow (scanLines kf buildInit (ksLines s))
        (sub64 (scanLines kf buildInit (ksLines s)).position
          (scanLines kf buildInit (ksLines s)).start)] := rfl
  rw [hseq, b1, b2, b7, sub64_of_le (Nat.zero_le _) (by omega), List.nil_append]
  unfold boundRow bodyScan
  rw [b1, b2, b3, b4, b5, a1, a2, a3]
  congr 2
  split <;> rfl


/-! ### C13 -/

/-- Lines whose widths agree as `uint32_t` values raise no deviation. -/
theorem scanLines_uniform (kf : Option (List Nat → Option (List Nat))) (B : List (List Nat))
    (st : BuildState) (w : Nat) (hB : ∀ l ∈ B, isHeader l = false)
    (hw : ∀ l ∈ B, u32 (l.length + 1) = w) (h0 : st.bad_line = 0)
    (hl : st.line_len = 0 ∨ st.line_len = w) :
    (scanLines kf st B).bad_line = 0 ∧
    ((scanLines kf st B).line_len = 0 ∨ (scanLines kf st B).line_len = w) := by
  induction B generalizing st with
  | nil => exact ⟨h0, hl⟩
  | cons l ls ih =>
    have hlh : isHeader l = false := hB l (by simp)
    have hwl : u32 (l.length + 1) = w := hw l (by simp)
    rw [scanLines_cons]
    apply ih _ (fun x hx => hB x (by simp [hx])) (fun x hx => hw x (by simp [hx]))
    · rw [loopBody_body kf st l hlh]
      simp only [hwl, h0]
      rcases hl with hl | hl
      · simp [hl]
      · simp [hl]
    · rw [loopBody_body kf st l hlh]
      simp only [hwl]
      rcases hl with hl | hl
      · right; simp [hl]
      · by_cases hz : st.line_len = 0
        · right; simp [hz]
        · right; simp [hz, hl]

theorem loopBody_bad_le_one (kf : Option (List Nat → Option (List Nat))) (st : BuildState)
    (l : List Nat) (hl : isHeader l = false) (h0 : st.bad_line = 0) :
    (loopBody kf st l).bad_line ≤ 1 := by
  rw [loopBody_body kf st l hl]
  simp only [h0]
  split
  · exact Nat.le_of_eq rfl
  · exact Nat.zero_le _

/-- When the body lines other than the final one have widths that agree as
`uint32_t` values, at most one deviation is counted. -/
theorem bodyScan_bad_le_one (e : Nat) (B : List (List Nat)) (w : Nat)
    (hB : ∀ l ∈ B, isHeader l = false) (hu : ∀ l ∈ B.dropLast, u32 (l.length + 1) = w) :
    (bodyScan e B).bad_line ≤ 1 := by
  by_cases hnil : B = []
  · subst hnil; exact Nat.zero_le _
  · have hsplit := List.dropLast_append_getLast hnil
    have hBd : ∀ l ∈ B.dropLast, isHeader l = false :=
      fun l hl => hB l ((List.dropLast_sublist B).subset hl)
    have hlast : isHeader (B.getLast hnil) = false := hB _ (List.getLast_mem hnil)
    obtain ⟨u1, -⟩ := scanLines_uniform none B.dropLast { buildInit with line_end := e } w hBd hu
      rfl (Or.inl rfl)
    have := loopBody_bad_le_one none
      (scanLines none { buildInit with line_end := e } B.dropLast) (B.getLast hnil) hlast u1
    unfold bodyScan
    rw [← hsplit, scanLines_append, scanLines_cons, scanLines_nil]
    exact this

theorem bodyScan_widths (e : Nat) (B : List (List Nat)) (hB : ∀ l ∈ B, isHeader l = false)
    (hlen : ∀ l ∈ B, l.length + 1 < 4294967296) (hcount : B.length < 4294967296) :
    (bodyScan e B).line_len = firstWidth B ∧ (bodyScan e B).bad_line = deviating B :=
  scanLines_body_fresh none B { buildInit with line_end := e } hB rfl rfl hlen hcount

theorem deviating_dropLast_le (B : List (List Nat)) : deviating B.dropLast ≤ deviating B := by
  cases B with
  | nil => exact Nat.le_refl _
  | cons l0 rest =>
    by_cases hr : rest = []
    · subst hr; simp [deviating]
    · rw [List.dropLast_cons_of_ne_nil hr]
      simp only [deviating]
      exact ((List.dropLast_sublist rest).filter _).length_le

theorem uniform_of_firstWidth (B : List (List Nat))
    (h : ∀ l ∈ B.dropLast, l.length + 1 = firstWidth B) :
    ∀ l ∈ B.dropLast, u32 (l.length + 1) = u32 (firstWidth B) :=
  fun l hl => by rw [h l hl]

/-- C13 (as amended): (1) the row committed for a header line whose body lines
other than the final one all have the width of the first body line has
normal flag 1; (2) when two or more body lines other than the final one
have a width different from the first body line's and the body lines are
shorter than `2^32 - 1` bytes and fewer than `2^32`, the normal flag is 0;
(3), (4) the same holds for the single row of a stream without header line;
(5) record chr1 of `>chr1 desc\nACGT\nAC\n>chr2\nTTTT\n` gets sequence length
6, byte length 8, terminator width 1 and normal flag 1. The stream is given
by its lines: `L1`, the header line `h`, the body lines `B`, then nothing or
lines starting with the next header (streams below `2^63 - 1` bytes). -/
theorem C13_normal_flag_cases :
    (∀ (self : Index) (L1 : List (List Nat)) (h : List Nat) (B L2 : List (List Nat)),
      ksLines self.file = L1 ++ h :: (B ++ L2) → isHeader h = true →
      (∀ l ∈ B, isHeader l = false) →
      (L2 = [] ∨ ∃ h2 rest, L2 = h2 :: rest ∧ isHeader h2 = true) →
      self.file.length < 9223372036854775807 →
      ∃ r : Row, (pyfastx_create_index self).1.index_db[headerLines L1]? = some r ∧
        ((∀ l ∈ B.dropLast, l.length + 1 = firstWidth B) → r.norm = 1) ∧
        ((∀ l ∈ B, l.length + 1 < 4294967296) → B.length < 4294967296 →
          2 ≤ deviating B.dropLast → r.norm = 0)) ∧
    (∀ (self : Index), (∀ l ∈ ksLines self.file, isHeader l = false) →
      self.file.length < 9223372036854775807 →
      ∃ r : Row, (pyfastx_create_index self).1.index_db = [r] ∧
        ((∀ l ∈ (ksLines self.file).dropLast, l.length + 1 = firstWidth (ksLines self.file)) →
          r.norm = 1) ∧
        ((∀ l ∈ ksLines self.file, l.length + 1 < 4294967296) →
          (ksLines self.file).length < 4294967296 →
          2 ≤ deviating (ksLines self.file).dropLast → r.norm = 0)) ∧
    (pyfastx_create_index
        (sampleIndex (bytes ">chr1 desc\nACGT\nAC\n>chr2\nTTTT\n") false none)).1.index_db[0]?
      = some { id := 1, chrom := some (bytes "chr1"), boff := 11, blen := 8, slen := 6, llen := 5,
               elen := 1, norm := 1, descr := some (bytes "chr1 desc") } := by
  refine ⟨?_, ?_, by decide⟩
  · intro self L1 h B L2 hl hh hB hL2 hsz
    obtain ⟨r, h1, -, -, -, -, -, -, -, -, h10⟩ :=
      record_lines_fields self.key_func self.file L1 h B L2 hl hh hB hL2 hsz
    refine ⟨r, h1, ?_, ?_⟩
    · intro hu
      have := bodyScan_bad_le_one (lineEndOf h) B _ hB (uniform_of_firstWidth B hu)
      rw [h10, if_neg (by omega)]
    · intro hlen hcount hdev
      have hd := deviating_dropLast_le B
      rw [h10, (bodyScan_widths (lineEndOf h) B hB hlen hcount).2, if_pos (by omega)]
  · intro self hno hsz
    have hrow := headerless_row self.key_func self.file hno hsz
    refine ⟨_, hrow, ?_, ?_⟩
    · intro hu
      have := bodyScan_bad_le_one 1 (ksLines self.file) _ hno (uniform_of_firstWidth _ hu)
      simp only
      rw [if_neg (by omega)]
    · intro hlen hcount hdev
      have hd := deviating_dropLast_le (ksLines self.file)
      simp only
      rw [(bodyScan_widths 1 (ksLines self.file) hno hlen hcount).2, if_pos (by omega)]

/-- C13 (as amended) on the first record of `>chr1 desc\nACGT\nAC\n>chr2\nTTTT\n`: its
body lines other than the final one (`ACGT`) have the width of the first. -/
theorem C13_normal_flag_cases_witness :
    ∃ r : Row, (pyfastx_create_index
        (sampleIndex (bytes ">chr1 desc\nACGT\nAC\n>chr2\nTTTT\n") false none)).1.index_db[
          headerLines []]? = some r ∧
      ((∀ l ∈ [bytes "ACGT", bytes "AC"].dropLast,
          l.length + 1 = firstWidth [bytes "ACGT", bytes "AC"]) → r.norm = 1) ∧
      ((∀ l ∈ [bytes "ACGT", bytes "AC"], l.length + 1 < 4294967296) →
        [bytes "ACGT", bytes "AC"].length < 4294967296 →
        2 ≤ deviating [bytes "ACGT", bytes "AC"].dropLast → r.norm = 0) :=
  C13_normal_flag_cases.1
    (sampleIndex (bytes ">chr1 desc\nACGT\nAC\n>chr2\nTTTT\n") false none)
    [] (bytes ">chr1 desc") [bytes "ACGT", bytes "AC"] [bytes ">chr2", bytes "TTTT"]
    (by decide) (by decide) (by decide) (Or.inr ⟨bytes ">chr2", [bytes "TTTT"], rfl, by decide⟩)
    (by decide)

theorem isHeader_replicate (n : Nat) : isHeader (List.replicate n 65) = false := by
  unfold isHeader
  rw [List.head?_replicate]
  split <;> simp

theorem not_mem_replicate_newline (n : Nat) : 10 ∉ List.replicate n 65 := by
  intro h
  have := (List.mem_replicate.mp h).2
  exact absurd this (by decide)

theorem ksLines_newline (rest : List Nat) : ksLines (10 :: rest) = [] :: ksLines rest := by
  rw [ksLines, if_pos rfl]

theorem wideLines_lines (n : Nat) :
    ksLines (wideLinesStream n)
      = [] ++ [62, 97] :: ([[], List.replicate n 65, List.replicate n 65, [65]] ++ []) := by
  unfold wideLinesStream
  rw [ksLines_line [62, 97] _ (by decide), ksLines_newline,
    ksLines_line (List.replicate n 65) _ (not_mem_replicate_newline n),
    ksLines_line (List.replicate n 65) _ (not_mem_replicate_newline n),
    ksLines_line [65] [] (by decide)]
  rfl

theorem wideLines_length (n : Nat) : (wideLinesStream n).length = 2 * n + 8 := by
  unfold wideLinesStream
  simp only [List.length_append, List.length_cons, List.length_replicate, List.length_nil]
  omega

theorem wideLines_deviating (n : Nat) (hn : n ≠ 0) :
    deviating ([[], List.replicate n 65, List.replicate n 65, [65]].dropLast) = 2 := by
  have e : ([[], List.replicate n 65, List.replicate n 65, [65]] : List (List Nat)).dropLast
      = [[], List.replicate n 65, List.replicate n 65] := rfl
  rw [e]
  simp only [deviating, List.filter_cons, List.length_replicate, List.length_nil, ne_eq, hn,
    not_false_eq_true, decide_True, if_true, List.filter_nil, List.length_cons]

/-- When the two long lines have a width that is 1 as a `uint32_t`, the width
of the empty first body line, they raise no deviation and the flag is 1. -/
theorem wideLines_norm (n : Nat) (hn : u32 (n + 1) = 1) (hsz : 2 * n + 8 < 9223372036854775807) :
    ∃ r : Row, (pyfastx_create_index (sampleIndex (wideLinesStream n) false none)).1.index_db[0]?
      = some r ∧ r.norm = 1 := by
  have hB : ∀ l ∈ ([[], List.replicate n 65, List.replicate n 65, [65]] : List (List Nat)),
      isHeader l = false := by
    intro l hl
    simp only [List.mem_cons, List.mem_singleton, List.mem_nil_iff, or_false] at hl
    rcases hl with h | h | h | h
    · rw [h]; rfl
    · rw [h]; exact isHeader_replicate n
    · rw [h]; exact isHeader_replicate n
    · rw [h]; rfl
  obtain ⟨r, h1, -, -, -, -, -, -, -, -, h10⟩ :=
    record_lines_fields none (wideLinesStream n) [] [62, 97]
      [[], List.replicate n 65, List.replicate n 65, [65]] [] (wideLines_lines n) (by decide) hB
      (Or.inl rfl) (by rw [wideLines_length]; exact hsz)
  have hu : ∀ l ∈ ([[], List.replicate n 65, List.replicate n 65, [65]] : List (List Nat)).dropLast,
      u32 (l.length + 1) = 1 := by
    have e : ([[], List.replicate n 65, List.replicate n 65, [65]] : List (List Nat)).dropLast
        = [[], List.replicate n 65, List.replicate n 65] := rfl
    rw [e]
    intro l hl
    simp only [List.mem_cons, List.mem_singleton, List.mem_nil_iff, or_false] at hl
    rcases hl with h | h | h
    · rw [h]; rfl
    · rw [h, List.length_replicate]; exact hn
    · rw [h, List.length_replicate]; exact hn
  have hle := bodyScan_bad_le_one (lineEndOf [62, 97])
    [[], List.replicate n 65, List.replicate n 65, [65]] 1 hB hu
  refine ⟨r, ?_, ?_⟩
  · exact h1
  · rw [h10, if_neg (by omega)]

/-- C13, counterexample to the claim as stated: the record of `wideLinesStream 4294967296`
has four body lines: an empty line, two lines of `2^32` bytes `A` each, and
the line `A`. Two body lines other than the final one have a width
(`2^32 + 1`) different from the first body line's (1), so the claim gives
flag 0; as `uint32_t` values these widths are equal, and the row committed
has flag 1. -/
theorem C13_counterexample :
    ksLines (wideLinesStream 4294967296)
      = [] ++ [62, 97] :: ([[], List.replicate 4294967296 65, List.replicate 4294967296 65, [65]]
          ++ []) ∧
    deviating ([[], List.replicate 4294967296 65, List.replicate 4294967296 65, [65]].dropLast)
      = 2 ∧
    ∃ r : Row, (pyfastx_create_index
        (sampleIndex (wideLinesStream 4294967296) false none)).1.index_db[0]? = some r ∧
      r.norm = 1 :=
  ⟨wideLines_lines 4294967296, wideLines_deviating 4294967296 (by decide),
   wideLines_norm 4294967296 (by decide) (by decide)⟩

/-! ### C14 -/

/-- The sequence length counter after the body lines is, modulo `2^32`, the
sum over the lines of `line.l + 1 - line_end`. -/
theorem bodyScan_seq_len (e : Nat) (B : List (List Nat)) (hB : ∀ l ∈ B, isHeader l = false) :
    ((bodyScan e B).seq_len : Int) % 4294967296 =
      (B.map (fun l => (l.length : Int) + 1 - (e : Int))).sum % 4294967296 := by
  have h := scanLines_body_seq_len none B { buildInit with line_end := e } hB
  have e0 : (({ buildInit with line_end := e } : BuildState).seq_len : Int) = 0 := rfl
  rw [e0, Int.zero_add] at h
  exact h

theorem toInt32_congr (a b : Nat) (h : (a : Int) % 4294967296 = (b : Int) % 4294967296) :
    toInt32 a = toInt32 b := by
  unfold toInt32
  have : a % 4294967296 = b % 4294967296 := by omega
  rw [this]

/-- C14 (as amended): for the row committed for a header line, and for the
single row of a stream without header line, the stored sequence length
equals the sum, over the body lines of the record, of the number of bytes
of the line before its newline, plus one, minus the stored terminator
width, whenever that sum lies in the range of `int` (from `-2^31` up to
`2^31 - 1`); a record without body lines has sequence length 0. The stream
is given by its lines (streams below `2^63 - 1` bytes). -/
theorem C14_sequence_length_sum :
    (∀ (self : Index) (L1 : List (List Nat)) (h : List Nat) (B L2 : List (List Nat)),
      ksLines self.file = L1 ++ h :: (B ++ L2) → isHeader h = true →
      (∀ l ∈ B, isHeader l = false) →
      (L2 = [] ∨ ∃ h2 rest, L2 = h2 :: rest ∧ isHeader h2 = true) →
      self.file.length < 9223372036854775807 →
      ∃ r : Row, (pyfastx_create_index self).1.index_db[headerLines L1]? = some r ∧
        (B = [] → r.slen = 0) ∧
        (-2147483648 ≤ (B.map (fun l => (l.length : Int) + 1 - r.elen)).sum →
          (B.map (fun l => (l.length : Int) + 1 - r.elen)).sum < 2147483648 →
          r.slen = (B.map (fun l => (l.length : Int) + 1 - r.elen)).sum)) ∧
    (∀ (self : Index), (∀ l ∈ ksLines self.file, isHeader l = false) →
      self.file.length < 9223372036854775807 →
      ∃ r : Row, (pyfastx_create_index self).1.index_db = [r] ∧
        (ksLines self.file = [] → r.slen = 0) ∧
        (-2147483648 ≤ ((ksLines self.file).map (fun l => (l.length : Int) + 1 - r.elen)).sum →
          ((ksLines self.file).map (fun l => (l.length : Int) + 1 - r.elen)).sum < 2147483648 →
          r.slen = ((ksLines self.file).map (fun l => (l.length : Int) + 1 - r.elen)).sum)) := by
  constructor
  · intro self L1 h B L2 hl hh hB hL2 hsz
    obtain ⟨r, h1, -, -, -, h5, -, -, h8, -, -⟩ :=
      record_lines_fields self.key_func self.file L1 h B L2 hl hh hB hL2 hsz
    refine ⟨r, h1, ?_, ?_⟩
    · intro hnil
      rw [h8, hnil]
      rfl
    · rw [h5, h8]
      intro hlo hhi
      exact toInt32_eq_of_emod _ _ (bodyScan_seq_len (lineEndOf h) B hB) hlo hhi
  · intro self hno hsz
    have hrow := headerless_row self.key_func self.file hno hsz
    refine ⟨_, hrow, ?_, ?_⟩
    · intro hnil
      simp only [hnil]
      rfl
    · simp only
      intro hlo hhi
      exact toInt32_eq_of_emod _ _ (bodyScan_seq_len 1 (ksLines self.file) hno) hlo hhi

/-- C14 (as amended) on the first record of `>s\r\nACGT\r\nAC\r\n>t\r\n`: the sum is
`(5 + 1 - 2) + (3 + 1 - 2) = 6`. -/
theorem C14_sequence_length_sum_witness :
    ∃ r : Row, (pyfastx_create_index
        (sampleIndex (bytes ">s\r\nACGT\r\nAC\r\n>t\r\n") false none)).1.index_db[headerLines []]?
        = some r ∧
      ([bytes "ACGT\r", bytes "AC\r"] = [] → r.slen = 0) ∧
      (-2147483648 ≤ ([bytes "ACGT\r", bytes "AC\r"].map
          (fun l => (l.length : Int) + 1 - r.elen)).sum →
        ([bytes "ACGT\r", bytes "AC\r"].map (fun l => (l.length : Int) + 1 - r.elen)).sum
          < 2147483648 →
        r.slen = ([bytes "ACGT\r", bytes "AC\r"].map
          (fun l => (l.length : Int) + 1 - r.elen)).sum) :=
  C14_sequence_length_sum.1 (sampleIndex (bytes ">s\r\nACGT\r\nAC\r\n>t\r\n") false none)
    [] (bytes ">s\r") [bytes "ACGT\r", bytes "AC\r"] [bytes ">t\r"]
    (by decide) (by decide) (by decide) (Or.inr ⟨bytes ">t\r", [], rfl, by decide⟩) (by decide)

theorem longLine_lines (n : Nat) :
    ksLines (longLineStream n) = [] ++ [62, 97] :: ([List.replicate n 65] ++ []) := by
  unfold longLineStream
  rw [ksLines_line [62, 97] _ (by decide),
    ksLines_line (List.replicate n 65) [] (not_mem_replicate_newline n)]
  rfl

theorem longLine_length (n : Nat) : (longLineStream n).length = n + 4 := by
  unfold longLineStream
  simp only [List.length_append, List.length_cons, List.length_replicate, List.length_nil]
  omega

/-- The record of a stream with one body line of `n` bytes is stored with the
`int` that `n` converts to. -/
theorem longLine_slen (n : Nat) (hsz : n + 4 < 9223372036854775807) :
    ∃ r : Row, (pyfastx_create_index (sampleIndex (longLineStream n) false none)).1.index_db[0]?
      = some r ∧ r.elen = 1 ∧ r.slen = toInt32 n := by
  have hB : ∀ l ∈ ([List.replicate n 65] : List (List Nat)), isHeader l = false := by
    intro l hl
    simp only [List.mem_singleton] at hl
    rw [hl]; exact isHeader_replicate n
  obtain ⟨r, h1, -, -, -, h5, -, -, h8, -, -⟩ :=
    record_lines_fields none (longLineStream n) [] [62, 97] [List.replicate n 65] []
      (longLine_lines n) (by decide) hB (Or.inl rfl) (by rw [longLine_length]; exact hsz)
  have hs := bodyScan_seq_len (lineEndOf [62, 97]) [List.replicate n 65] hB
  have he : lineEndOf [62, 97] = 1 := by decide
  rw [he] at hs h5 h8
  simp only [List.map_cons, List.map_nil, List.sum_cons, List.sum_nil, List.length_replicate] at hs
  refine ⟨r, h1, h5, ?_⟩
  rw [h8]
  apply toInt32_congr
  rw [hs]
  congr 1
  push_cast
  omega

/-- C14, counterexample to the claim as stated: the record of `longLineStream 4294967296`
has one body line of `2^32` bytes and terminator width 1, so the sum of
width minus terminator width is `2^32`; the sequence length committed is 0. -/
theorem C14_counterexample :
    ksLines (longLineStream 4294967296)
      = [] ++ [62, 97] :: ([List.replicate 4294967296 65] ++ []) ∧
    (List.replicate 4294967296 65).length + 1 - 1 = 4294967296 ∧
    ∃ r : Row, (pyfastx_create_index
        (sampleIndex (longLineStream 4294967296) false none)).1.index_db[0]? = some r ∧
      r.elen = 1 ∧ r.slen = toInt32 4294967296 ∧ toInt32 4294967296 = 0 :=
  ⟨longLine_lines 4294967296, by rw [List.length_replicate],
   (longLine_slen 4294967296 (by decide)).imp
     (fun _ hr => ⟨hr.1, hr.2.1, hr.2.2, by decide⟩)⟩

/-! ### C15 -/

end Pyfastx
